import Mathlib

/-
Verification of `import_webflow.py` (Webflow → Django import script).

The script's HTML rewrite pass (`WebflowImporter.update_html`) is embedded as a
pure transformation over a parse-tree type `Node` mirroring the BeautifulSoup
document: text nodes (NavigableString) and element nodes with a name, an
attribute dictionary, and a children list.  Fallible steps (reading an
attribute that is absent, `soup.find` returning `None`) are embedded with
`Option`; `none` models the unhandled Python exception.  The static-asset move
phase (`WebflowImporter.move_static_file`) is embedded over an explicit
filesystem-fragment state.
-/

/- ------------------------------------------------------------------ -/
/- String helpers (mirroring the Python string primitives used).      -/
/- ------------------------------------------------------------------ -/

/-- Check that the first list is an initial segment of the second;
`startsL p s` mirrors Python `s.startswith(p)` on char lists. -/
def startsL : List Char → List Char → Bool
  | [], _ => true
  | _ :: _, [] => false
  | p :: ps, c :: cs => p == c && startsL ps cs

/-- Python `s.startswith(p)` on strings. -/
def strStarts (s p : String) : Bool := startsL p.data s.data

/-- Python `s.split(" ")` (explicit single-space separator semantics):
the resulting token list, as char lists. -/
def splitSp : List Char → List (List Char)
  | [] => [[]]
  | c :: r =>
    if c = ' ' then [] :: splitSp r
    else
      match splitSp r with
      | [] => [[c]]
      | h :: t => (c :: h) :: t

/- ------------------------------------------------------------------ -/
/- The fixed template strings produced by update_html.                -/
/- ------------------------------------------------------------------ -/

/-- `f"{{% static '{target_app}/{path}' %}}"`. -/
def staticRef (app path : String) : String :=
  "\x7b% static \x27" ++ app ++ "/" ++ path ++ "\x27 %\x7d"

/-- The load-static directive inserted at the html root. -/
def loadStaticTag : String := "\x7b% load static %\x7d"

/-- The CSRF marker inserted into every form. -/
def csrfTag : String := "\x7b% csrf_token %\x7d"

/-- The for-loop-open marker built from a `data-for` value. -/
def forOpen (v : String) : String := "\x7b% for " ++ v ++ " %\x7d"

/-- The for-loop-close marker. -/
def forClose : String := "\x7b% endfor %\x7d"

/-- The variable interpolation built from a `data-for` value. -/
def interpTag (v : String) : String := "\x7b\x7b " ++ v ++ " \x7d\x7d"

/-- The `make_forms_async` script body (module-level constant of the source). -/
def makeFormsAsync : String :=
  "\n    // Add native form submission support for Webflow forms. This makes all forms asynchronous.\n"
  ++ "    async function submitForm(event, formElement) \x7b\n"
  ++ "        /*\n"
  ++ "        We use this function to make static html forms submit data asynchronously.\n"
  ++ "        */\n"
  ++ "        event.preventDefault();\n\n"
  ++ "        const formData = new FormData(formElement);\n"
  ++ "        const response = await fetch(formElement.action, \x7b method: formElement.method, body: formData \x7d);\n\n"
  ++ "        if (response.ok) \x7b\n"
  ++ "            formElement.style.display = \x27none\x27;\n"
  ++ "            const formDoneElement = formElement.parentElement.querySelector(\x27.w-form-done\x27);\n"
  ++ "            if (formDoneElement) \x7b\n"
  ++ "                formDoneElement.style.display = \x27block\x27;\n"
  ++ "            \x7d\n"
  ++ "        \x7d else \x7b\n"
  ++ "            const formFailElement = formElement.parentElement.querySelector(\x27.w-form-fail\x27);\n"
  ++ "            if (formFailElement) \x7b\n"
  ++ "                formFailElement.style.display = \x27block\x27;\n"
  ++ "            \x7d\n"
  ++ "        \x7d\n"
  ++ "    \x7d\n\n"
  ++ "    const forms = document.querySelectorAll(\x27form\x27);\n"
  ++ "    forms.forEach(form => form.addEventListener(\x27submit\x27, event => submitForm(event, form)));\n"

/- ------------------------------------------------------------------ -/
/- The srcset regex substitution: re.sub(r"images/([^ ]+)", ...).     -/
/- ------------------------------------------------------------------ -/

/-- The literal part of the pattern, `images/`. -/
def imgsSlash : List Char := ['i', 'm', 'a', 'g', 'e', 's', '/']

/-- The replacement text for one match with captured group `path`:
`rf"{{% static '{target_app}/images/\g<1>' %}}"`. -/
def replPath (app : String) (path : List Char) : List Char :=
  ("\x7b% static \x27" ++ app ++ "/images/").data ++ path ++ ("\x27 %\x7d").data

/-- Left-to-right non-overlapping scan of `re.sub(r"images/([^ ]+)", repl, s)`:
at each position, if the literal `images/` is present and followed by at least
one non-space character, the maximal non-space run is the captured group and is
replaced; otherwise the scan advances one character.  The fuel argument is only
for structural termination; `fuel ≥ length` always holds at the call site. -/
def reSubGo (app : String) : Nat → List Char → List Char
  | 0, s => s
  | _ + 1, [] => []
  | fuel + 1, c :: rest =>
    if startsL imgsSlash (c :: rest) then
      let after := (c :: rest).drop 7
      let path := after.takeWhile (fun ch => ch != ' ')
      if path.isEmpty then c :: reSubGo app fuel rest
      else replPath app path ++ reSubGo app fuel (after.drop path.length)
    else c :: reSubGo app fuel rest

/-- `re.sub(r"images/([^ ]+)", rf"{{% static '{app}/images/\g<1>' %}}", s)`. -/
def reSubImages (app : String) (s : String) : String :=
  ⟨reSubGo app s.data.length s.data⟩

/- ------------------------------------------------------------------ -/
/- The document model.                                                -/
/- ------------------------------------------------------------------ -/

/-- An HTML parse-tree node: a text node (NavigableString) or an element with
a name, an attribute dictionary, and a children list (`Tag.contents`). -/
inductive Node where
  | text : String → Node
  | elem : String → List (String × String) → List Node → Node

/-- A parsed document: the soup's top-level contents list. -/
abbrev Doc := List Node

mutual

def beqN : Node → Node → Bool
  | .text s, .text t => s == t
  | .elem n a c, .elem m b d => n == m && a == b && beqL c d
  | _, _ => false

def beqL : List Node → List Node → Bool
  | [], [] => true
  | x :: xs, y :: ys => beqN x y && beqL xs ys
  | _, _ => false

end

mutual

theorem beqN_eq : ∀ a b, beqN a b = true ↔ a = b
  | .text s, .text t => by simp [beqN]
  | .text _, .elem _ _ _ => by simp [beqN]
  | .elem _ _ _, .text _ => by simp [beqN]
  | .elem n a c, .elem m b d => by
      simp [beqN, Bool.and_eq_true, beqL_eq c d, and_assoc]

theorem beqL_eq : ∀ a b, beqL a b = true ↔ a = b
  | [], [] => by simp [beqL]
  | [], _ :: _ => by simp [beqL]
  | _ :: _, [] => by simp [beqL]
  | x :: xs, y :: ys => by
      simp [beqL, Bool.and_eq_true, beqN_eq x y, beqL_eq xs ys]

end

instance : DecidableEq Node := fun a b => decidable_of_iff _ (beqN_eq a b)

/-- Attribute dictionaries (`Tag.attrs`); keys are unique in bs4, embedded as
an association list with first-match lookup. -/
abbrev Attrs := List (String × String)

/-- A list of `(position, text)` insertions performed by `Tag.insert`. -/
abbrev Ins := List (Int × String)

/-- `tag.get(key)`: first-match association lookup. -/
def getAttr : Attrs → String → Option String
  | [], _ => none
  | (k, v) :: rest, key => if k = key then some v else getAttr rest key

/-- `tag[key] = val`: replace the binding if present, else add it. -/
def setAttr : Attrs → String → String → Attrs
  | [], key, val => [(key, val)]
  | (k, v) :: rest, key, val =>
    if k = key then (key, val) :: rest else (k, v) :: setAttr rest key val

/-- The index at which bs4 `Tag.insert(pos, ·)` places the child in a list of
length `n`: clamp `pos` to `min pos n`, then Python `list.insert` semantics
(a negative index counts from the end, clamped at 0). -/
def pyIdx (pos : Int) (n : Nat) : Nat :=
  let p := min pos (n : Int)
  if p < 0 then ((n : Int) + p).toNat else p.toNat

/-- bs4 `Tag.insert(pos, child)`. -/
def pyInsert (pos : Int) (x : Node) (l : List Node) : List Node :=
  l.take (pyIdx pos l.length) ++ x :: l.drop (pyIdx pos l.length)

/-- Perform a sequence of `Tag.insert(pos, string)` calls in order. -/
def applyIns (ins : Ins) (c : List Node) : List Node :=
  ins.foldl (fun acc q => pyInsert q.1 (Node.text q.2) acc) c

/- ------------------------------------------------------------------ -/
/- The per-element actions of update_html's passes.                   -/
/- Each takes the element name and attributes and returns the new     -/
/- attributes plus the child insertions; `none` models the unhandled  -/
/- AttributeError raised on a missing expected attribute.             -/
/- ------------------------------------------------------------------ -/

/-- The body of the `link` loop: reads `href` unconditionally (raising when
absent), then the two sequential `if` rewrites for `css` / `images`. -/
def linkLocal (app : String) (a : Attrs) : Option (Attrs × Ins) :=
  match getAttr a "href" with
  | none => none
  | some href =>
    let a1 := if strStarts href "css" then setAttr a "href" (staticRef app href) else a
    match getAttr a1 "href" with
    | none => none
    | some href1 =>
      some ((if strStarts href1 "images" then setAttr a1 "href" (staticRef app href1) else a1), [])

/-- Pass 1 action: `for tag in soup.find_all('link')`. -/
def linkF (app : String) (n : String) (a : Attrs) : Option (Attrs × Ins) :=
  if n = "link" then linkLocal app a else some (a, [])

/-- Pass 2 action: `for tag in soup.find_all('img')`: reads `src`
unconditionally, then rewrites `src` and (guardedly) `srcset`. -/
def imgF (app : String) (n : String) (a : Attrs) : Option (Attrs × Ins) :=
  if n = "img" then
    match getAttr a "src" with
    | none => none
    | some src =>
      let a1 := if strStarts src "images" then setAttr a "src" (staticRef app src) else a
      let ss := (getAttr a1 "srcset").getD ""
      let a2 := if strStarts ss "images" then setAttr a1 "srcset" (reSubImages app ss) else a1
      some (a2, [])
  else some (a, [])

/-- Pass 3 action: `for tag in soup.find_all('script')`: `src` is read with
`tag.get` and checked for presence before use. -/
def scriptF (app : String) (n : String) (a : Attrs) : Option (Attrs × Ins) :=
  if n = "script" then
    match getAttr a "src" with
    | some src =>
      if strStarts src "js" then some (setAttr a "src" (staticRef app src), [])
      else some (a, [])
    | none => some (a, [])
  else some (a, [])

/-- Pass 4 action: `soup.find_all('div', {'data-animation-type': 'lottie'})`:
`data-src` is read with `tag.get` and checked for presence before use. -/
def lottieF (app : String) (n : String) (a : Attrs) : Option (Attrs × Ins) :=
  if n = "div" then
    if getAttr a "data-animation-type" = some "lottie" then
      match getAttr a "data-src" with
      | some ds =>
        if strStarts ds "documents" then some (setAttr a "data-src" (staticRef app ds), [])
        else some (a, [])
      | none => some (a, [])
    else some (a, [])
  else some (a, [])

/-- Pass 5 action: `soup.find_all(['div', 'img', 'li', 'ul'], {'data-for': True})`:
if the value splits (on a single space) into more than one token, insert the
for-loop markers at positions 0 and -1; otherwise overwrite `src` (for img) or
insert the interpolation at position 0. -/
def dataForF (n : String) (a : Attrs) : Option (Attrs × Ins) :=
  if n = "div" ∨ n = "img" ∨ n = "li" ∨ n = "ul" then
    match getAttr a "data-for" with
    | none => some (a, [])
    | some v =>
      if (splitSp v.data).length > 1 then
        some (a, [((0 : Int), forOpen v), ((-1 : Int), forClose)])
      else if n = "img" then some (setAttr a "src" (interpTag v), [])
      else some (a, [((0 : Int), interpTag v)])
  else some (a, [])

/-- Pass 7 action: `for form_tag in soup.find_all('form')`: insert the CSRF
marker at position 0. -/
def formF (n : String) (a : Attrs) : Option (Attrs × Ins) :=
  if n = "form" then some (a, [((0 : Int), csrfTag)]) else some (a, [])

/- ------------------------------------------------------------------ -/
/- Applying a per-element action over the whole document, and the     -/
/- single-node surgeries (insert at soup.find('html'), soup.body).    -/
/- ------------------------------------------------------------------ -/

mutual

/-- Apply a per-element action everywhere in a node (the effect of a
`find_all` loop: every matching element is mutated in place, which is local to
that element, so the loop is a recursive map). -/
def passN (f : String → Attrs → Option (Attrs × Ins)) : Node → Option Node
  | .text s => some (.text s)
  | .elem n a c =>
    match f n a, passL f c with
    | some r, some c' => some (.elem n r.1 (applyIns r.2 c'))
    | _, _ => none

def passL (f : String → Attrs → Option (Attrs × Ins)) : List Node → Option (List Node)
  | [] => some []
  | x :: xs =>
    match passN f x, passL f xs with
    | some x', some xs' => some (x' :: xs')
    | _, _ => none

end

mutual

/-- Rewrite the children of the first element named `t` in document order
(`soup.find(t)`) with `g`; `none` models `find` returning `None` and the
subsequent attribute access raising. -/
def surgN (t : String) (g : List Node → List Node) : Node → Option Node
  | .text _ => none
  | .elem n a c =>
    if n = t then some (.elem n a (g c))
    else
      match surgL t g c with
      | some c' => some (.elem n a c')
      | none => none

def surgL (t : String) (g : List Node → List Node) : List Node → Option (List Node)
  | [] => none
  | x :: xs =>
    match surgN t g x with
    | some x' => some (x' :: xs)
    | none =>
      match surgL t g xs with
      | some xs' => some (x :: xs')
      | none => none

end

/-- `html_tag.insert(0, '{% load static %}')`. -/
def gHtml (c : List Node) : List Node := pyInsert 0 (.text loadStaticTag) c

/-- The fresh `<script>` element holding the async form handler. -/
def asyncScriptNode : Node := .elem "script" [] [.text makeFormsAsync]

/-- `soup.body.append(script_tag)`. -/
def gBody (c : List Node) : List Node := c ++ [asyncScriptNode]

/-- The form-augmentation tail of update_html: CSRF into every form, then the
async-submission script appended to the body. -/
def formsAsync (d : Doc) : Option Doc :=
  (passL formF d).bind (surgL "body" gBody)

/-- The whole rewrite `update_html` performs on one parsed document, in the
source's pass order. -/
def update (app : String) (d : Doc) : Option Doc :=
  (passL (linkF app) d).bind fun d1 =>
  (passL (imgF app) d1).bind fun d2 =>
  (passL (scriptF app) d2).bind fun d3 =>
  (passL (lottieF app) d3).bind fun d4 =>
  (passL dataForF d4).bind fun d5 =>
  (surgL "html" gHtml d5).bind fun d6 =>
  formsAsync d6

/-- `update_htmls`: rewrite documents sequentially; an unhandled error aborts
the rest of the run, leaving earlier results in place.  Returns the rewritten
documents produced before any failure and whether the run aborted. -/
def runDocs (app : String) : List Doc → List Doc × Bool
  | [] => ([], false)
  | d :: ds =>
    match update app d with
    | none => ([], true)
    | some d' =>
      let r := runDocs app ds
      (d' :: r.1, r.2)

/- ------------------------------------------------------------------ -/
/- Observations on documents used to state the claims.                -/
/- ------------------------------------------------------------------ -/

mutual

/-- All elements of a node in document (pre-)order, as (name, attrs) pairs. -/
def elemsN : Node → List (String × Attrs)
  | .text _ => []
  | .elem n a c => (n, a) :: elemsL c

def elemsL : List Node → List (String × Attrs)
  | [] => []
  | x :: xs => elemsN x ++ elemsL xs

end

/-- All element names of a document in document order. -/
def namesL (d : List Node) : List String := (elemsL d).map Prod.fst

mutual

/-- Count the text nodes equal to `s`. -/
def ctN (s : String) : Node → Nat
  | .text t => if t = s then 1 else 0
  | .elem _ _ c => ctL s c

def ctL (s : String) : List Node → Nat
  | [] => 0
  | x :: xs => ctN s x + ctL s xs

end

mutual

/-- Every form element's first child is the CSRF marker text. -/
def formsOkN : Node → Bool
  | .text _ => true
  | .elem n _ c =>
    (if n = "form" then
      match c.head? with
      | some (.text t) => t = csrfTag
      | _ => false
    else true) && formsOkL c

def formsOkL : List Node → Bool
  | [] => true
  | x :: xs => formsOkN x && formsOkL xs

end

/-- The name/attribute effect of one per-element action, as a total map. -/
def locAttrs (f : String → Attrs → Option (Attrs × Ins)) (p : String × Attrs) :
    String × Attrs :=
  match f p.1 p.2 with
  | some r => (p.1, r.1)
  | none => p

/- ------------------------------------------------------------------ -/
/- The static-asset move phase (move_static_file).                    -/
/- ------------------------------------------------------------------ -/

/-- A filesystem entry: a file with contents, or a directory (os.rename moves
either wholesale). -/
inductive FsEntry where
  | file : String → FsEntry
  | dir : List (String × FsEntry) → FsEntry

/-- The filesystem fragment one `move_static_file` call touches: the contents
of `<working_dir>/<category>/` (`none` when the directory is absent — listing
it raises FileNotFoundError), the contents of the destination category
directory together with whether that directory exists, the recorded filename
list for the category (`self.static_files[type]`), and the stdout log. -/
structure FsCatState where
  workCat : Option (List (String × FsEntry))
  destCat : List (String × FsEntry)
  destExists : Bool
  record : List String
  log : List String

/-- First-match lookup in a directory listing. -/
def lookupE : List (String × FsEntry) → String → Option FsEntry
  | [], _ => none
  | (k, v) :: rest, key => if k = key then some v else lookupE rest key

/-- `os.rename` target semantics: replace an existing entry of the same name,
else add the entry. -/
def setE : List (String × FsEntry) → String → FsEntry → List (String × FsEntry)
  | [], key, e => [(key, e)]
  | (k, v) :: rest, key, e =>
    if k = key then (key, e) :: rest else (k, v) :: setE rest key e

/-- Remove the entry with the given name (the source side of `os.rename`). -/
def eraseE : List (String × FsEntry) → String → List (String × FsEntry)
  | [], _ => []
  | (k, v) :: rest, key => if k = key then rest else (k, v) :: eraseE rest key

/-- `f'No {t} files found. Continuing.\n'`. -/
def noticeMsg (t : String) : String := "No " ++ t ++ " files found. Continuing.\n"

/-- `f'+ Moved {t} ({file} to {file_dest})\n'`. -/
def movedMsg (app t name : String) : String :=
  "+ Moved " ++ t ++ " (" ++ name ++ " to " ++
    app ++ "/static/" ++ app ++ "/" ++ t ++ "/" ++ name ++ ")\n"

/-- One loop iteration: `os.rename(file_src, file_dest)`, the stdout notice,
and `self.static_files[t].append(file)`. -/
def moveOne (app t : String) (st : FsCatState) (e : String × FsEntry) : FsCatState :=
  { st with
    workCat := st.workCat.map (fun l => eraseE l e.1),
    destCat := setE st.destCat e.1 e.2,
    record := st.record ++ [e.1],
    log := st.log ++ [movedMsg app t e.1] }

/-- `move_static_file`: `os.makedirs(dest, exist_ok=True)` first, then list the
source category directory; a missing directory raises FileNotFoundError which
is caught and logged; otherwise every listed entry is renamed in order. -/
def moveStaticFile (app t : String) (s : FsCatState) : FsCatState :=
  match s.workCat with
  | none => { s with destExists := true, log := s.log ++ [noticeMsg t] }
  | some es => es.foldl (moveOne app t) { s with destExists := true }

/- ------------------------------------------------------------------ -/
/- Basic lemmas: attributes, insertions, observations.                -/
/- ------------------------------------------------------------------ -/

theorem getAttr_set_self (a : Attrs) (k v : String) :
    getAttr (setAttr a k v) k = some v := by
  induction a with
  | nil => simp [setAttr, getAttr]
  | cons p rest ih =>
    by_cases h : p.1 = k
    · simp [setAttr, getAttr, h]
    · simp [setAttr, getAttr, h, ih]

theorem getAttr_set_ne (a : Attrs) (k k' v : String) (h : k ≠ k') :
    getAttr (setAttr a k v) k' = getAttr a k' := by
  induction a with
  | nil => simp [setAttr, getAttr, h]
  | cons p rest ih =>
    by_cases hp : p.1 = k
    · simp [setAttr, getAttr, hp, h]
    · by_cases hp' : p.1 = k'
      · simp [setAttr, getAttr, hp, hp', Ne.symm h]
      · simp [setAttr, getAttr, hp, hp', ih]

theorem take_len_append (a b : List Char) : (a ++ b).take a.length = a := by
  induction a with
  | nil => simp
  | cons x xs ih => simp [ih]

theorem str_ne_of_data (s t : String) (h : s.data ≠ t.data) : s ≠ t :=
  fun he => h (congrArg String.data he)

/-- A string with a fixed leading part differs from any fixed string whose
corresponding leading characters differ. -/
theorem concat_ne_fixed (p v s w : String)
    (h : w.data.take p.data.length ≠ p.data) : p ++ v ++ s ≠ w := by
  apply str_ne_of_data
  intro hd
  apply h
  rw [← hd]
  simp only [String.data_append, List.append_assoc]
  exact take_len_append _ _

theorem forOpen_ne_load (v : String) : forOpen v ≠ loadStaticTag :=
  concat_ne_fixed _ _ _ _ (by decide)

theorem forOpen_ne_csrf (v : String) : forOpen v ≠ csrfTag :=
  concat_ne_fixed _ _ _ _ (by decide)

theorem forOpen_ne_async (v : String) : forOpen v ≠ makeFormsAsync :=
  concat_ne_fixed _ _ _ _ (by decide)

theorem interp_ne_load (v : String) : interpTag v ≠ loadStaticTag :=
  concat_ne_fixed _ _ _ _ (by decide)

theorem interp_ne_csrf (v : String) : interpTag v ≠ csrfTag :=
  concat_ne_fixed _ _ _ _ (by decide)

theorem interp_ne_async (v : String) : interpTag v ≠ makeFormsAsync :=
  concat_ne_fixed _ _ _ _ (by decide)

theorem elemsL_append (a b : List Node) : elemsL (a ++ b) = elemsL a ++ elemsL b := by
  induction a with
  | nil => simp [elemsL]
  | cons x xs ih => simp [elemsL, ih]

theorem elemsL_insert_text (s : String) (idx : Nat) (l : List Node) :
    elemsL (l.take idx ++ Node.text s :: l.drop idx) = elemsL l := by
  rw [elemsL_append]
  simp only [elemsL, elemsN, List.nil_append]
  have h2 := elemsL_append (l.take idx) (l.drop idx)
  rw [List.take_append_drop] at h2
  exact h2.symm

theorem elemsL_pyInsert (p : Int) (s : String) (l : List Node) :
    elemsL (pyInsert p (.text s) l) = elemsL l := by
  unfold pyInsert
  exact elemsL_insert_text s _ l

theorem elemsL_applyIns (ins : Ins) (c : List Node) :
    elemsL (applyIns ins c) = elemsL c := by
  induction ins generalizing c with
  | nil => rfl
  | cons q rest ih =>
    show elemsL (applyIns rest (pyInsert q.1 (.text q.2) c)) = elemsL c
    rw [ih, elemsL_pyInsert]

theorem ctL_append (s : String) (a b : List Node) :
    ctL s (a ++ b) = ctL s a + ctL s b := by
  induction a with
  | nil => simp [ctL]
  | cons x xs ih => simp [ctL, ih]; omega

theorem ctL_insert_text (t s : String) (idx : Nat) (l : List Node) :
    ctL s (l.take idx ++ Node.text t :: l.drop idx) =
      (if t = s then 1 else 0) + ctL s l := by
  rw [ctL_append]
  simp only [ctL, ctN]
  have h2 := ctL_append s (l.take idx) (l.drop idx)
  rw [List.take_append_drop] at h2
  omega

theorem ctL_pyInsert (p : Int) (t s : String) (l : List Node) :
    ctL s (pyInsert p (.text t) l) = (if t = s then 1 else 0) + ctL s l := by
  unfold pyInsert
  exact ctL_insert_text t s _ l

theorem ctL_applyIns (ins : Ins) (c : List Node) (s : String)
    (h : ∀ q ∈ ins, q.2 ≠ s) : ctL s (applyIns ins c) = ctL s c := by
  induction ins generalizing c with
  | nil => rfl
  | cons q rest ih =>
    show ctL s (applyIns rest (pyInsert q.1 (.text q.2) c)) = ctL s c
    rw [ih _ (fun q hq => h q (List.mem_cons_of_mem _ hq)), ctL_pyInsert]
    have hq : q.2 ≠ s := h q (List.mem_cons_self _ _)
    simp [hq]

/- ------------------------------------------------------------------ -/
/- Generic lemmas about a find_all pass.                              -/
/- ------------------------------------------------------------------ -/

mutual

theorem elems_passN (f : String → Attrs → Option (Attrs × Ins)) :
    ∀ x x', passN f x = some x' → elemsN x' = (elemsN x).map (locAttrs f)
  | .text s, x', h => by
      simp only [passN, Option.some.injEq] at h
      subst h
      rfl
  | .elem n a c, x', h => by
      cases hf : f n a with
      | none => simp [passN, hf] at h
      | some r =>
        cases hc : passL f c with
        | none => simp [passN, hf, hc] at h
        | some c' =>
          have ih := elems_passL f c c' hc
          simp only [passN, hf, hc, Option.some.injEq] at h
          subst h
          simp [elemsN, elemsL_applyIns, ih, locAttrs, hf]

theorem elems_passL (f : String → Attrs → Option (Attrs × Ins)) :
    ∀ l l', passL f l = some l' → elemsL l' = (elemsL l).map (locAttrs f)
  | [], l', h => by
      simp only [passL, Option.some.injEq] at h
      subst h
      rfl
  | x :: xs, l', h => by
      cases hx : passN f x with
      | none => simp [passL, hx] at h
      | some x' =>
        cases hxs : passL f xs with
        | none => simp [passL, hx, hxs] at h
        | some xs' =>
          have ih1 := elems_passN f x x' hx
          have ih2 := elems_passL f xs xs' hxs
          simp only [passL, hx, hxs, Option.some.injEq] at h
          subst h
          simp [elemsL, ih1, ih2]

end

mutual

theorem passN_isSome (f : String → Attrs → Option (Attrs × Ins)) :
    ∀ x, (∀ p ∈ elemsN x, (f p.1 p.2).isSome) → (passN f x).isSome
  | .text s, _ => by simp [passN]
  | .elem n a c, h => by
      have hf : (f n a).isSome := h (n, a) (by simp [elemsN])
      have hc : (passL f c).isSome :=
        passL_isSome f c (fun p hp => h p (by simp [elemsN, List.mem_cons]; exact Or.inr hp))
      cases hfe : f n a with
      | none => rw [hfe] at hf; simp at hf
      | some r =>
        cases hce : passL f c with
        | none => rw [hce] at hc; simp at hc
        | some c' => simp [passN, hfe, hce]

theorem passL_isSome (f : String → Attrs → Option (Attrs × Ins)) :
    ∀ l, (∀ p ∈ elemsL l, (f p.1 p.2).isSome) → (passL f l).isSome
  | [], _ => by simp [passL]
  | x :: xs, h => by
      have h1 : (passN f x).isSome :=
        passN_isSome f x (fun p hp => h p (by simp [elemsL, List.mem_append]; exact Or.inl hp))
      have h2 : (passL f xs).isSome :=
        passL_isSome f xs (fun p hp => h p (by simp [elemsL, List.mem_append]; exact Or.inr hp))
      cases hx : passN f x with
      | none => rw [hx] at h1; simp at h1
      | some x' =>
        cases hxs : passL f xs with
        | none => rw [hxs] at h2; simp at h2
        | some xs' => simp [passL, hx, hxs]

end

mutual

theorem passN_f_isSome (f : String → Attrs → Option (Attrs × Ins)) :
    ∀ x x', passN f x = some x' → ∀ p ∈ elemsN x, (f p.1 p.2).isSome
  | .text s, x', h => by simp [elemsN]
  | .elem n a c, x', h => by
      cases hf : f n a with
      | none => simp [passN, hf] at h
      | some r =>
        cases hc : passL f c with
        | none => simp [passN, hf, hc] at h
        | some c' =>
          intro p hp
          simp only [elemsN, List.mem_cons] at hp
          rcases hp with rfl | hp
          · simp [hf]
          · exact passL_f_isSome f c c' hc p hp

theorem passL_f_isSome (f : String → Attrs → Option (Attrs × Ins)) :
    ∀ l l', passL f l = some l' → ∀ p ∈ elemsL l, (f p.1 p.2).isSome
  | [], l', h => by simp [elemsL]
  | x :: xs, l', h => by
      cases hx : passN f x with
      | none => simp [passL, hx] at h
      | some x' =>
        cases hxs : passL f xs with
        | none => simp [passL, hx, hxs] at h
        | some xs' =>
          intro p hp
          simp only [elemsL, List.mem_append] at hp
          rcases hp with hp | hp
          · exact passN_f_isSome f x x' hx p hp
          · exact passL_f_isSome f xs xs' hxs p hp

end

mutual

theorem ct_passN (f : String → Attrs → Option (Attrs × Ins)) (s : String)
    (hf : ∀ n a r, f n a = some r → ∀ q ∈ r.2, q.2 ≠ s) :
    ∀ x x', passN f x = some x' → ctN s x' = ctN s x
  | .text t, x', h => by
      simp only [passN, Option.some.injEq] at h
      subst h
      rfl
  | .elem n a c, x', h => by
      cases hfe : f n a with
      | none => simp [passN, hfe] at h
      | some r =>
        cases hce : passL f c with
        | none => simp [passN, hfe, hce] at h
        | some c' =>
          have ih := ct_passL f s hf c c' hce
          simp only [passN, hfe, hce, Option.some.injEq] at h
          subst h
          simp only [ctN]
          rw [ctL_applyIns _ _ _ (hf n a r hfe), ih]

theorem ct_passL (f : String → Attrs → Option (Attrs × Ins)) (s : String)
    (hf : ∀ n a r, f n a = some r → ∀ q ∈ r.2, q.2 ≠ s) :
    ∀ l l', passL f l = some l' → ctL s l' = ctL s l
  | [], l', h => by
      simp only [passL, Option.some.injEq] at h
      subst h
      rfl
  | x :: xs, l', h => by
      cases hx : passN f x with
      | none => simp [passL, hx] at h
      | some x' =>
        cases hxs : passL f xs with
        | none => simp [passL, hx, hxs] at h
        | some xs' =>
          have ih1 := ct_passN f s hf x x' hx
          have ih2 := ct_passL f s hf xs xs' hxs
          simp only [passL, hx, hxs, Option.some.injEq] at h
          subst h
          simp [ctL, ih1, ih2]

end

/- ------------------------------------------------------------------ -/
/- Generic lemmas about a single-node surgery (soup.find + mutate).   -/
/- ------------------------------------------------------------------ -/

mutual

theorem surgN_isSome_iff (t : String) (g : List Node → List Node) :
    ∀ x, (surgN t g x).isSome = true ↔ t ∈ (elemsN x).map Prod.fst
  | .text s => by simp [surgN, elemsN]
  | .elem n a c => by
      by_cases hn : n = t
      · simp [surgN, hn, elemsN]
      · have ih := surgL_isSome_iff t g c
        cases hc : surgL t g c with
        | none =>
          rw [hc] at ih
          simp only [Option.isSome_none, Bool.false_eq_true, false_iff] at ih
          simp [surgN, hn, hc, elemsN, Ne.symm hn, ih]
        | some c' =>
          rw [hc] at ih
          simp only [Option.isSome_some, true_iff] at ih
          simp [surgN, hn, hc, elemsN, ih]

theorem surgL_isSome_iff (t : String) (g : List Node → List Node) :
    ∀ l, (surgL t g l).isSome = true ↔ t ∈ (elemsL l).map Prod.fst
  | [] => by simp [surgL, elemsL]
  | x :: xs => by
      have ih1 := surgN_isSome_iff t g x
      have ih2 := surgL_isSome_iff t g xs
      cases hx : surgN t g x with
      | some x' =>
        rw [hx] at ih1
        simp only [Option.isSome_some, true_iff] at ih1
        simp [surgL, hx, elemsL, ih1]
      | none =>
        rw [hx] at ih1
        simp only [Option.isSome_none, Bool.false_eq_true, false_iff] at ih1
        cases hxs : surgL t g xs with
        | some xs' =>
          rw [hxs] at ih2
          simp only [Option.isSome_some, true_iff] at ih2
          simp [surgL, hx, hxs, elemsL, ih2]
        | none =>
          rw [hxs] at ih2
          simp only [Option.isSome_none, Bool.false_eq_true, false_iff] at ih2
          simp [surgL, hx, hxs, elemsL, ih1, ih2]

end

mutual

theorem elems_surgN (t : String) (g : List Node → List Node)
    (extra : List (String × Attrs))
    (hg : ∀ c, elemsL (g c) = elemsL c ++ extra) :
    ∀ x x', surgN t g x = some x' →
      ∃ A B, elemsN x = A ++ B ∧ elemsN x' = A ++ extra ++ B
  | .text s, x', h => by simp [surgN] at h
  | .elem n a c, x', h => by
      by_cases hn : n = t
      · simp only [surgN, hn, if_true, Option.some.injEq] at h
        subst h
        refine ⟨(n, a) :: elemsL c, [], by simp [elemsN], ?_⟩
        simp [elemsN, hg c, hn]
      · simp only [surgN, hn, if_false] at h
        cases hc : surgL t g c with
        | none => rw [hc] at h; exact absurd h (by simp)
        | some c' =>
          rw [hc] at h
          simp only [Option.some.injEq] at h
          subst h
          obtain ⟨A, B, h1, h2⟩ := elems_surgL t g extra hg c c' hc
          exact ⟨(n, a) :: A, B, by simp [elemsN, h1], by simp [elemsN, h2]⟩

theorem elems_surgL (t : String) (g : List Node → List Node)
    (extra : List (String × Attrs))
    (hg : ∀ c, elemsL (g c) = elemsL c ++ extra) :
    ∀ l l', surgL t g l = some l' →
      ∃ A B, elemsL l = A ++ B ∧ elemsL l' = A ++ extra ++ B
  | [], l', h => by simp [surgL] at h
  | x :: xs, l', h => by
      cases hx : surgN t g x with
      | some x' =>
        rw [surgL, hx] at h
        simp only [Option.some.injEq] at h
        subst h
        obtain ⟨A, B, h1, h2⟩ := elems_surgN t g extra hg x x' hx
        refine ⟨A, B ++ elemsL xs, ?_, ?_⟩
        · simp [elemsL, h1]
        · simp [elemsL, h2]
      | none =>
        rw [surgL, hx] at h
        cases hxs : surgL t g xs with
        | none => rw [hxs] at h; exact absurd h (by simp)
        | some xs' =>
          rw [hxs] at h
          simp only [Option.some.injEq] at h
          subst h
          obtain ⟨A, B, h1, h2⟩ := elems_surgL t g extra hg xs xs' hxs
          refine ⟨elemsN x ++ A, B, ?_, ?_⟩
          · simp [elemsL, h1]
          · simp [elemsL, h2]

end

mutual

theorem ct_surgN (t : String) (g : List Node → List Node) (s : String) (k : Nat)
    (hg : ∀ c, ctL s (g c) = k + ctL s c) :
    ∀ x x', surgN t g x = some x' → ctN s x' = k + ctN s x
  | .text u, x', h => by simp [surgN] at h
  | .elem n a c, x', h => by
      by_cases hn : n = t
      · simp only [surgN, hn, if_true, Option.some.injEq] at h
        subst h
        simp [ctN, hg c]
      · simp only [surgN, hn, if_false] at h
        cases hc : surgL t g c with
        | none => rw [hc] at h; exact absurd h (by simp)
        | some c' =>
          rw [hc] at h
          simp only [Option.some.injEq] at h
          subst h
          have ih := ct_surgL t g s k hg c c' hc
          simp [ctN, ih]

theorem ct_surgL (t : String) (g : List Node → List Node) (s : String) (k : Nat)
    (hg : ∀ c, ctL s (g c) = k + ctL s c) :
    ∀ l l', surgL t g l = some l' → ctL s l' = k + ctL s l
  | [], l', h => by simp [surgL] at h
  | x :: xs, l', h => by
      cases hx : surgN t g x with
      | some x' =>
        rw [surgL, hx] at h
        simp only [Option.some.injEq] at h
        subst h
        have ih := ct_surgN t g s k hg x x' hx
        simp [ctL, ih]
        omega
      | none =>
        rw [surgL, hx] at h
        cases hxs : surgL t g xs with
        | none => rw [hxs] at h; exact absurd h (by simp)
        | some xs' =>
          rw [hxs] at h
          simp only [Option.some.injEq] at h
          subst h
          have ih := ct_surgL t g s k hg xs xs' hxs
          simp [ctL, ih]
          omega

end

/- ------------------------------------------------------------------ -/
/- Facts about the individual per-element actions.                    -/
/- ------------------------------------------------------------------ -/

theorem linkF_other (app n : String) (a : Attrs) (h : n ≠ "link") :
    linkF app n a = some (a, []) := by simp [linkF, h]

theorem imgF_other (app n : String) (a : Attrs) (h : n ≠ "img") :
    imgF app n a = some (a, []) := by simp [imgF, h]

theorem scriptF_other (app n : String) (a : Attrs) (h : n ≠ "script") :
    scriptF app n a = some (a, []) := by simp [scriptF, h]

theorem lottieF_other (app n : String) (a : Attrs) (h : n ≠ "div") :
    lottieF app n a = some (a, []) := by simp [lottieF, h]

theorem dataForF_other (n : String) (a : Attrs)
    (h1 : n ≠ "div") (h2 : n ≠ "img") (h3 : n ≠ "li") (h4 : n ≠ "ul") :
    dataForF n a = some (a, []) := by simp [dataForF, h1, h2, h3, h4]

theorem formF_other (n : String) (a : Attrs) (h : n ≠ "form") :
    formF n a = some (a, []) := by simp [formF, h]

theorem linkF_ins (app n : String) (a : Attrs) (r : Attrs × Ins)
    (h : linkF app n a = some r) : r.2 = [] := by
  by_cases hn : n = "link"
  · subst hn
    cases hh : getAttr a "href" with
    | none => simp [linkF, linkLocal, hh] at h
    | some href =>
      by_cases hc : strStarts href "css" = true
      · simp [linkF, linkLocal, hh, hc, getAttr_set_self] at h
        subst h
        rfl
      · simp [linkF, linkLocal, hh, hc] at h
        subst h
        rfl
  · rw [linkF_other app n a hn] at h
    simp only [Option.some.injEq] at h
    subst h
    rfl

theorem imgF_ins (app n : String) (a : Attrs) (r : Attrs × Ins)
    (h : imgF app n a = some r) : r.2 = [] := by
  by_cases hn : n = "img"
  · subst hn
    cases hh : getAttr a "src" with
    | none => simp [imgF, hh] at h
    | some src =>
      simp [imgF, hh] at h
      subst h
      rfl
  · rw [imgF_other app n a hn] at h
    simp only [Option.some.injEq] at h
    subst h
    rfl

theorem scriptF_ins (app n : String) (a : Attrs) (r : Attrs × Ins)
    (h : scriptF app n a = some r) : r.2 = [] := by
  unfold scriptF at h
  repeat' split at h
  all_goals first
    | (simp only [Option.some.injEq] at h; subst h; rfl)
    | simp at h

theorem lottieF_ins (app n : String) (a : Attrs) (r : Attrs × Ins)
    (h : lottieF app n a = some r) : r.2 = [] := by
  unfold lottieF at h
  repeat' split at h
  all_goals first
    | (simp only [Option.some.injEq] at h; subst h; rfl)
    | simp at h

theorem dataForF_ins (n : String) (a : Attrs) (r : Attrs × Ins)
    (h : dataForF n a = some r) :
    r.2 = [] ∨ (∃ v, r.2 = [((0 : Int), forOpen v), ((-1 : Int), forClose)]) ∨
      (∃ v, r.2 = [((0 : Int), interpTag v)]) := by
  unfold dataForF at h
  repeat' split at h
  all_goals (simp only [Option.some.injEq] at h; subst h)
  all_goals first
    | exact Or.inl rfl
    | exact Or.inr (Or.inl ⟨_, rfl⟩)
    | exact Or.inr (Or.inr ⟨_, rfl⟩)

theorem formF_ins (n : String) (a : Attrs) (r : Attrs × Ins)
    (h : formF n a = some r) :
    r.2 = [] ∨ r.2 = [((0 : Int), csrfTag)] := by
  unfold formF at h
  split at h
  · simp only [Option.some.injEq] at h
    subst h
    exact Or.inr rfl
  · simp only [Option.some.injEq] at h
    subst h
    exact Or.inl rfl

theorem scriptF_total (app n : String) (a : Attrs) : (scriptF app n a).isSome := by
  unfold scriptF
  repeat' split
  all_goals simp

theorem lottieF_total (app n : String) (a : Attrs) : (lottieF app n a).isSome := by
  unfold lottieF
  repeat' split
  all_goals simp

theorem dataForF_total (n : String) (a : Attrs) : (dataForF n a).isSome := by
  unfold dataForF
  repeat' split
  all_goals simp

theorem formF_total (n : String) (a : Attrs) : (formF n a).isSome := by
  unfold formF
  split <;> simp

theorem linkF_some (app : String) (a : Attrs) (h : (getAttr a "href").isSome) :
    (linkF app "link" a).isSome := by
  cases hh : getAttr a "href" with
  | none => rw [hh] at h; simp at h
  | some href =>
    by_cases hc : strStarts href "css" = true
    · simp [linkF, linkLocal, hh, hc, getAttr_set_self]
    · simp [linkF, linkLocal, hh, hc]

theorem imgF_some (app : String) (a : Attrs) (h : (getAttr a "src").isSome) :
    (imgF app "img" a).isSome := by
  cases hh : getAttr a "src" with
  | none => rw [hh] at h; simp at h
  | some src => simp [imgF, hh]

theorem linkF_none (app : String) (a : Attrs) (h : getAttr a "href" = none) :
    linkF app "link" a = none := by
  simp [linkF, linkLocal, h]

theorem imgF_none (app : String) (a : Attrs) (h : getAttr a "src" = none) :
    imgF app "img" a = none := by
  simp [imgF, h]

theorem linkF_href (app : String) (a : Attrs) (r : Attrs × Ins)
    (h : linkF app "link" a = some r) : (getAttr r.1 "href").isSome := by
  cases hh : getAttr a "href" with
  | none => simp [linkF, linkLocal, hh] at h
  | some href =>
    by_cases hc : strStarts href "css" = true
    · simp [linkF, linkLocal, hh, hc, getAttr_set_self] at h
      subst h
      repeat' split
      all_goals rw [getAttr_set_self]; rfl
    · simp [linkF, linkLocal, hh, hc] at h
      subst h
      repeat' split
      all_goals first
        | (rw [getAttr_set_self]; rfl)
        | (rw [hh]; rfl)

theorem imgF_src (app : String) (a : Attrs) (r : Attrs × Ins)
    (h : imgF app "img" a = some r) : (getAttr r.1 "src").isSome := by
  cases hh : getAttr a "src" with
  | none => simp [imgF, hh] at h
  | some src =>
    simp [imgF, hh] at h
    subst h
    repeat' split
    all_goals first
      | (rw [getAttr_set_ne _ "srcset" "src" _ (by decide), getAttr_set_self]; rfl)
      | (rw [getAttr_set_ne _ "srcset" "src" _ (by decide), hh]; rfl)
      | (rw [getAttr_set_self]; rfl)
      | (rw [hh]; rfl)

theorem dataForF_img_src (a : Attrs) (r : Attrs × Ins)
    (h : dataForF "img" a = some r) (h0 : (getAttr a "src").isSome) :
    (getAttr r.1 "src").isSome := by
  unfold dataForF at h
  repeat' split at h
  all_goals (simp only [Option.some.injEq] at h; subst h)
  all_goals first
    | exact h0
    | (rw [getAttr_set_self]; rfl)

/- ------------------------------------------------------------------ -/
/- Plumbing: elements, names, and counts through the composed passes. -/
/- ------------------------------------------------------------------ -/

theorem pass_elems_mem (f : String → Attrs → Option (Attrs × Ins)) (l l' : List Node)
    (h : passL f l = some l') :
    ∀ p' ∈ elemsL l', ∃ p ∈ elemsL l, ∃ r, f p.1 p.2 = some r ∧ p' = (p.1, r.1) := by
  intro p' hp'
  rw [elems_passL f l l' h] at hp'
  obtain ⟨p, hp, hpe⟩ := List.mem_map.mp hp'
  have hs := passL_f_isSome f l l' h p hp
  cases hr : f p.1 p.2 with
  | none => rw [hr] at hs; simp at hs
  | some r =>
    refine ⟨p, hp, r, hr, ?_⟩
    rw [← hpe]
    simp [locAttrs, hr]

theorem locAttrs_fst (f : String → Attrs → Option (Attrs × Ins)) (p : String × Attrs) :
    (locAttrs f p).1 = p.1 := by
  cases hf : f p.1 p.2 <;> simp [locAttrs, hf]

theorem pass_names (f : String → Attrs → Option (Attrs × Ins)) (l l' : List Node)
    (h : passL f l = some l') : namesL l' = namesL l := by
  unfold namesL
  rw [elems_passL f l l' h, List.map_map]
  apply List.map_congr_left
  intro p _
  exact locAttrs_fst f p

theorem surg_elems_sub (t : String) (g : List Node → List Node)
    (extra : List (String × Attrs)) (hg : ∀ c, elemsL (g c) = elemsL c ++ extra)
    (l l' : List Node) (h : surgL t g l = some l') :
    ∀ p' ∈ elemsL l', p' ∈ elemsL l ∨ p' ∈ extra := by
  obtain ⟨A, B, h1, h2⟩ := elems_surgL t g extra hg l l' h
  intro p' hp'
  rw [h2] at hp'
  rw [h1]
  simp only [List.mem_append] at hp' ⊢
  tauto

theorem surg_elems_sup (t : String) (g : List Node → List Node)
    (extra : List (String × Attrs)) (hg : ∀ c, elemsL (g c) = elemsL c ++ extra)
    (l l' : List Node) (h : surgL t g l = some l') :
    ∀ p ∈ elemsL l, p ∈ elemsL l' := by
  obtain ⟨A, B, h1, h2⟩ := elems_surgL t g extra hg l l' h
  intro p hp
  rw [h1] at hp
  rw [h2]
  simp only [List.mem_append] at hp ⊢
  tauto

theorem surg_elems_nil (t : String) (g : List Node → List Node)
    (hg : ∀ c, elemsL (g c) = elemsL c ++ [])
    (l l' : List Node) (h : surgL t g l = some l') : elemsL l' = elemsL l := by
  obtain ⟨A, B, h1, h2⟩ := elems_surgL t g [] hg l l' h
  rw [h1, h2]
  simp

theorem gHtml_elems (c : List Node) : elemsL (gHtml c) = elemsL c ++ [] := by
  simp [gHtml, elemsL_pyInsert]

theorem gBody_elems (c : List Node) :
    elemsL (gBody c) = elemsL c ++ [("script", ([] : Attrs))] := by
  simp [gBody, elemsL_append, elemsL, elemsN, asyncScriptNode]

theorem gHtml_ct (s : String) (c : List Node) :
    ctL s (gHtml c) = (if loadStaticTag = s then 1 else 0) + ctL s c := by
  simp [gHtml, ctL_pyInsert]

theorem gBody_ct (s : String) (c : List Node) :
    ctL s (gBody c) = (if makeFormsAsync = s then 1 else 0) + ctL s c := by
  simp [gBody, ctL_append, ctL, ctN, asyncScriptNode]
  omega

mutual

/-- Count the elements named `nm`. -/
def cnN (nm : String) : Node → Nat
  | .text _ => 0
  | .elem n _ c => (if n = nm then 1 else 0) + cnL nm c

def cnL (nm : String) : List Node → Nat
  | [] => 0
  | x :: xs => cnN nm x + cnL nm xs

end

mutual

theorem cnN_eq (nm : String) : ∀ x, cnN nm x = ((elemsN x).map Prod.fst).count nm
  | .text _ => by simp [cnN, elemsN]
  | .elem n a c => by
      have ih := cnL_eq nm c
      simp only [cnN, elemsN, List.map_cons, List.count_cons, ih]
      by_cases h : n = nm <;> simp [h]
      omega

theorem cnL_eq (nm : String) : ∀ l, cnL nm l = ((elemsL l).map Prod.fst).count nm
  | [] => by simp [cnL, elemsL]
  | x :: xs => by
      have ih1 := cnN_eq nm x
      have ih2 := cnL_eq nm xs
      simp [cnL, elemsL, List.count_append, ih1, ih2]

end

theorem cn_namesL (nm : String) (l : List Node) : cnL nm l = (namesL l).count nm :=
  cnL_eq nm l

mutual

theorem form_csrf_N : ∀ x x', passN formF x = some x' →
    ctN csrfTag x' = ctN csrfTag x + cnN "form" x
  | .text t, x', h => by
      simp only [passN, Option.some.injEq] at h
      subst h
      simp [cnN]
  | .elem n a c, x', h => by
      cases hfe : formF n a with
      | none => simp [passN, hfe] at h
      | some r =>
        cases hce : passL formF c with
        | none => simp [passN, hfe, hce] at h
        | some c' =>
          have ih := form_csrf_L c c' hce
          simp only [passN, hfe, hce, Option.some.injEq] at h
          subst h
          by_cases hn : n = "form"
          · have hr : r = (a, [((0 : Int), csrfTag)]) := by
              unfold formF at hfe
              rw [if_pos hn] at hfe
              exact (Option.some.inj hfe).symm
            rw [hr]
            simp only [ctN, cnN, applyIns, List.foldl_cons, List.foldl_nil]
            rw [ctL_pyInsert]
            simp [hn, ih]
            omega
          · have hr : r = (a, ([] : Ins)) := by
              unfold formF at hfe
              rw [if_neg hn] at hfe
              exact (Option.some.inj hfe).symm
            rw [hr]
            simp only [ctN, cnN, applyIns, List.foldl_nil]
            simp [hn, ih]

theorem form_csrf_L : ∀ l l', passL formF l = some l' →
    ctL csrfTag l' = ctL csrfTag l + cnL "form" l
  | [], l', h => by
      simp only [passL, Option.some.injEq] at h
      subst h
      simp [ctL, cnL]
  | x :: xs, l', h => by
      cases hx : passN formF x with
      | none => simp [passL, hx] at h
      | some x' =>
        cases hxs : passL formF xs with
        | none => simp [passL, hx, hxs] at h
        | some xs' =>
          have ih1 := form_csrf_N x x' hx
          have ih2 := form_csrf_L xs xs' hxs
          simp only [passL, hx, hxs, Option.some.injEq] at h
          subst h
          simp [ctL, cnL, ih1, ih2]
          omega

end

/- ------------------------------------------------------------------ -/
/- Structural invariants through update_html.                         -/
/- ------------------------------------------------------------------ -/

theorem pyIdx_zero (n : Nat) : pyIdx 0 n = 0 := by
  unfold pyIdx
  rw [min_eq_left (Int.natCast_nonneg n)]
  simp

theorem pyInsert_zero (x : Node) (l : List Node) : pyInsert 0 x l = x :: l := by
  unfold pyInsert
  rw [pyIdx_zero]
  simp

/-- Every link element carries an href (the attribute the link pass reads
unconditionally). -/
def PLink (q : String × Attrs) : Prop := q.1 = "link" → (getAttr q.2 "href").isSome

/-- Every img element carries a src (the attribute the img pass reads
unconditionally). -/
def PImg (q : String × Attrs) : Prop := q.1 = "img" → (getAttr q.2 "src").isSome

/-- A structurally sound input for update_html: all links have href, all imgs
have src, and html and body elements exist. -/
def GoodDoc (d : Doc) : Prop :=
  (∀ p ∈ elemsL d, PLink p) ∧ (∀ p ∈ elemsL d, PImg p) ∧
    "html" ∈ namesL d ∧ "body" ∈ namesL d

theorem pass_inv (f : String → Attrs → Option (Attrs × Ins)) (P : String × Attrs → Prop)
    (hf : ∀ n a r, f n a = some r → P (n, a) → P (n, r.1))
    (l l' : List Node) (h : passL f l = some l') (hP : ∀ p ∈ elemsL l, P p) :
    ∀ p ∈ elemsL l', P p := by
  intro p' hp'
  obtain ⟨p, hp, r, hr, rfl⟩ := pass_elems_mem f l l' h p' hp'
  exact hf p.1 p.2 r hr (hP p hp)

theorem pass_inv_est (f : String → Attrs → Option (Attrs × Ins)) (P : String × Attrs → Prop)
    (hf : ∀ n a r, f n a = some r → P (n, r.1))
    (l l' : List Node) (h : passL f l = some l') :
    ∀ p ∈ elemsL l', P p := by
  intro p' hp'
  obtain ⟨p, hp, r, hr, rfl⟩ := pass_elems_mem f l l' h p' hp'
  exact hf p.1 p.2 r hr

theorem linkF_PLink (app : String) : ∀ n a r, linkF app n a = some r → PLink (n, r.1) := by
  intro n a r hr hn
  subst hn
  exact linkF_href app a r hr

theorem imgF_PLink (app : String) :
    ∀ n a r, imgF app n a = some r → PLink (n, a) → PLink (n, r.1) := by
  intro n a r hr hP hn
  subst hn
  rw [imgF_other app "link" a (by decide)] at hr
  have he := (Option.some.inj hr).symm
  subst he
  exact hP rfl

theorem scriptF_PLink (app : String) :
    ∀ n a r, scriptF app n a = some r → PLink (n, a) → PLink (n, r.1) := by
  intro n a r hr hP hn
  subst hn
  rw [scriptF_other app "link" a (by decide)] at hr
  have he := (Option.some.inj hr).symm
  subst he
  exact hP rfl

theorem lottieF_PLink (app : String) :
    ∀ n a r, lottieF app n a = some r → PLink (n, a) → PLink (n, r.1) := by
  intro n a r hr hP hn
  subst hn
  rw [lottieF_other app "link" a (by decide)] at hr
  have he := (Option.some.inj hr).symm
  subst he
  exact hP rfl

theorem dataForF_PLink :
    ∀ n a r, dataForF n a = some r → PLink (n, a) → PLink (n, r.1) := by
  intro n a r hr hP hn
  subst hn
  rw [dataForF_other "link" a (by decide) (by decide) (by decide) (by decide)] at hr
  have he := (Option.some.inj hr).symm
  subst he
  exact hP rfl

theorem formF_PLink :
    ∀ n a r, formF n a = some r → PLink (n, a) → PLink (n, r.1) := by
  intro n a r hr hP hn
  subst hn
  rw [formF_other "link" a (by decide)] at hr
  have he := (Option.some.inj hr).symm
  subst he
  exact hP rfl

theorem linkF_PImg (app : String) :
    ∀ n a r, linkF app n a = some r → PImg (n, a) → PImg (n, r.1) := by
  intro n a r hr hP hn
  subst hn
  rw [linkF_other app "img" a (by decide)] at hr
  have he := (Option.some.inj hr).symm
  subst he
  exact hP rfl

theorem imgF_PImg (app : String) : ∀ n a r, imgF app n a = some r → PImg (n, r.1) := by
  intro n a r hr hn
  subst hn
  exact imgF_src app a r hr

theorem scriptF_PImg (app : String) :
    ∀ n a r, scriptF app n a = some r → PImg (n, a) → PImg (n, r.1) := by
  intro n a r hr hP hn
  subst hn
  rw [scriptF_other app "img" a (by decide)] at hr
  have he := (Option.some.inj hr).symm
  subst he
  exact hP rfl

theorem lottieF_PImg (app : String) :
    ∀ n a r, lottieF app n a = some r → PImg (n, a) → PImg (n, r.1) := by
  intro n a r hr hP hn
  subst hn
  rw [lottieF_other app "img" a (by decide)] at hr
  have he := (Option.some.inj hr).symm
  subst he
  exact hP rfl

theorem dataForF_PImg :
    ∀ n a r, dataForF n a = some r → PImg (n, a) → PImg (n, r.1) := by
  intro n a r hr hP hn
  subst hn
  exact dataForF_img_src a r hr (hP rfl)

theorem formF_PImg :
    ∀ n a r, formF n a = some r → PImg (n, a) → PImg (n, r.1) := by
  intro n a r hr hP hn
  subst hn
  rw [formF_other "img" a (by decide)] at hr
  have he := (Option.some.inj hr).symm
  subst he
  exact hP rfl

theorem ins_empty_ne (s : String) {r : Attrs × Ins} (h : r.2 = []) :
    ∀ q ∈ r.2, q.2 ≠ s := by
  rw [h]
  simp

theorem dataForF_ct (s : String) (hs1 : ∀ v, forOpen v ≠ s) (hs2 : forClose ≠ s)
    (hs3 : ∀ v, interpTag v ≠ s) :
    ∀ n a r, dataForF n a = some r → ∀ q ∈ r.2, q.2 ≠ s := by
  intro n a r hr q hq
  rcases dataForF_ins n a r hr with h | ⟨v, h⟩ | ⟨v, h⟩ <;> rw [h] at hq
  · simp at hq
  · simp only [List.mem_cons, List.not_mem_nil, or_false] at hq
    rcases hq with rfl | rfl
    · exact hs1 v
    · exact hs2
  · simp only [List.mem_cons, List.not_mem_nil, or_false] at hq
    rcases hq with rfl
    exact hs3 v

theorem formF_ct (s : String) (hs : csrfTag ≠ s) :
    ∀ n a r, formF n a = some r → ∀ q ∈ r.2, q.2 ≠ s := by
  intro n a r hr q hq
  rcases formF_ins n a r hr with h | h <;> rw [h] at hq
  · simp at hq
  · simp only [List.mem_cons, List.not_mem_nil, or_false] at hq
    rcases hq with rfl
    exact hs

theorem gHtml_ct_load : ∀ c, ctL loadStaticTag (gHtml c) = 1 + ctL loadStaticTag c := by
  intro c
  rw [gHtml_ct]
  simp

theorem gHtml_ct_other (s : String) (hs : loadStaticTag ≠ s) :
    ∀ c, ctL s (gHtml c) = 0 + ctL s c := by
  intro c
  rw [gHtml_ct]
  simp [hs]

theorem gBody_ct_async : ∀ c, ctL makeFormsAsync (gBody c) = 1 + ctL makeFormsAsync c := by
  intro c
  rw [gBody_ct]
  simp

theorem gBody_ct_other (s : String) (hs : makeFormsAsync ≠ s) :
    ∀ c, ctL s (gBody c) = 0 + ctL s c := by
  intro c
  rw [gBody_ct]
  simp [hs]

theorem update_decomp (app : String) (d d' : Doc) (h : update app d = some d') :
    ∃ d1 d2 d3 d4 d5 d6 d7,
      passL (linkF app) d = some d1 ∧ passL (imgF app) d1 = some d2 ∧
      passL (scriptF app) d2 = some d3 ∧ passL (lottieF app) d3 = some d4 ∧
      passL dataForF d4 = some d5 ∧ surgL "html" gHtml d5 = some d6 ∧
      passL formF d6 = some d7 ∧ surgL "body" gBody d7 = some d' := by
  unfold update formsAsync at h
  rw [Option.bind_eq_some] at h
  obtain ⟨d1, h1, h⟩ := h
  rw [Option.bind_eq_some] at h
  obtain ⟨d2, h2, h⟩ := h
  rw [Option.bind_eq_some] at h
  obtain ⟨d3, h3, h⟩ := h
  rw [Option.bind_eq_some] at h
  obtain ⟨d4, h4, h⟩ := h
  rw [Option.bind_eq_some] at h
  obtain ⟨d5, h5, h⟩ := h
  rw [Option.bind_eq_some] at h
  obtain ⟨d6, h6, h⟩ := h
  rw [Option.bind_eq_some] at h
  obtain ⟨d7, h7, h⟩ := h
  exact ⟨d1, d2, d3, d4, d5, d6, d7, h1, h2, h3, h4, h5, h6, h7, h⟩

theorem passL_none (f : String → Attrs → Option (Attrs × Ins)) (l : List Node)
    (p : String × Attrs) (hp : p ∈ elemsL l) (hf : f p.1 p.2 = none) :
    passL f l = none := by
  cases hl : passL f l with
  | none => rfl
  | some l' =>
    have := passL_f_isSome f l l' hl p hp
    rw [hf] at this
    simp at this

theorem surgL_none (t : String) (g : List Node → List Node) (l : List Node)
    (h : t ∉ namesL l) : surgL t g l = none := by
  cases hl : surgL t g l with
  | none => rfl
  | some l' =>
    have := (surgL_isSome_iff t g l).mp (by rw [hl]; rfl)
    exact absurd this h

theorem surg_names_mono (t : String) (g : List Node → List Node)
    (extra : List (String × Attrs)) (hg : ∀ c, elemsL (g c) = elemsL c ++ extra)
    (l l' : List Node) (h : surgL t g l = some l') :
    ∀ nm ∈ namesL l, nm ∈ namesL l' := by
  intro nm hnm
  unfold namesL at hnm ⊢
  obtain ⟨p, hp, hpe⟩ := List.mem_map.mp hnm
  exact List.mem_map.mpr ⟨p, surg_elems_sup t g extra hg l l' h p hp, hpe⟩

theorem surg_names_eq (t : String) (g : List Node → List Node)
    (hg : ∀ c, elemsL (g c) = elemsL c ++ [])
    (l l' : List Node) (h : surgL t g l = some l') : namesL l' = namesL l := by
  unfold namesL
  rw [surg_elems_nil t g hg l l' h]

/-- update_html leaves a structurally sound document: every link still has an
href, every img still has a src, and the html and body elements persist. -/
theorem update_good (app : String) (d d' : Doc) (h : update app d = some d') :
    GoodDoc d' := by
  obtain ⟨d1, d2, d3, d4, d5, d6, d7, h1, h2, h3, h4, h5, h6, h7, h8⟩ :=
    update_decomp app d d' h
  have e6 := surg_elems_nil "html" gHtml gHtml_elems d5 d6 h6
  have pl1 := pass_inv_est _ _ (linkF_PLink app) d d1 h1
  have pl2 := pass_inv _ _ (imgF_PLink app) d1 d2 h2 pl1
  have pl3 := pass_inv _ _ (scriptF_PLink app) d2 d3 h3 pl2
  have pl4 := pass_inv _ _ (lottieF_PLink app) d3 d4 h4 pl3
  have pl5 := pass_inv _ _ dataForF_PLink d4 d5 h5 pl4
  have pl6 : ∀ p ∈ elemsL d6, PLink p := by
    intro p hp
    rw [e6] at hp
    exact pl5 p hp
  have pl7 := pass_inv _ _ formF_PLink d6 d7 h7 pl6
  have pl8 : ∀ p ∈ elemsL d', PLink p := by
    intro p hp
    rcases surg_elems_sub "body" gBody _ gBody_elems d7 d' h8 p hp with hp2 | hp2
    · exact pl7 p hp2
    · simp only [List.mem_singleton] at hp2
      subst hp2
      intro hc
      exact absurd hc (by decide)
  have pi2 := pass_inv_est _ _ (imgF_PImg app) d1 d2 h2
  have pi3 := pass_inv _ _ (scriptF_PImg app) d2 d3 h3 pi2
  have pi4 := pass_inv _ _ (lottieF_PImg app) d3 d4 h4 pi3
  have pi5 := pass_inv _ _ dataForF_PImg d4 d5 h5 pi4
  have pi6 : ∀ p ∈ elemsL d6, PImg p := by
    intro p hp
    rw [e6] at hp
    exact pi5 p hp
  have pi7 := pass_inv _ _ formF_PImg d6 d7 h7 pi6
  have pi8 : ∀ p ∈ elemsL d', PImg p := by
    intro p hp
    rcases surg_elems_sub "body" gBody _ gBody_elems d7 d' h8 p hp with hp2 | hp2
    · exact pi7 p hp2
    · simp only [List.mem_singleton] at hp2
      subst hp2
      intro hc
      exact absurd hc (by decide)
  have hh5 : "html" ∈ namesL d5 := (surgL_isSome_iff "html" gHtml d5).mp (by rw [h6]; rfl)
  have hh7 : "html" ∈ namesL d7 := by
    rw [pass_names _ _ _ h7, surg_names_eq "html" gHtml gHtml_elems d5 d6 h6]
    exact hh5
  have hh8 : "html" ∈ namesL d' :=
    surg_names_mono "body" gBody _ gBody_elems d7 d' h8 _ hh7
  have hb7 : "body" ∈ namesL d7 := (surgL_isSome_iff "body" gBody d7).mp (by rw [h8]; rfl)
  have hb8 : "body" ∈ namesL d' :=
    surg_names_mono "body" gBody _ gBody_elems d7 d' h8 _ hb7
  exact ⟨pl8, pi8, hh8, hb8⟩

/-- On a structurally sound document, update_html completes without error. -/
theorem update_some (app : String) (d : Doc) (hg : GoodDoc d) :
    ∃ d', update app d = some d' := by
  obtain ⟨hl, hi, hh, hb⟩ := hg
  have s1 : (passL (linkF app) d).isSome := by
    apply passL_isSome
    intro p hp
    by_cases hn : p.1 = "link"
    · rw [hn]
      exact linkF_some app p.2 (hl p hp hn)
    · rw [linkF_other app p.1 p.2 hn]
      rfl
  obtain ⟨d1, h1⟩ := Option.isSome_iff_exists.mp s1
  have pi1 := pass_inv _ _ (linkF_PImg app) d d1 h1 hi
  have s2 : (passL (imgF app) d1).isSome := by
    apply passL_isSome
    intro p hp
    by_cases hn : p.1 = "img"
    · rw [hn]
      exact imgF_some app p.2 (pi1 p hp hn)
    · rw [imgF_other app p.1 p.2 hn]
      rfl
  obtain ⟨d2, h2⟩ := Option.isSome_iff_exists.mp s2
  obtain ⟨d3, h3⟩ := Option.isSome_iff_exists.mp
    (passL_isSome (scriptF app) d2 (fun p _ => scriptF_total app p.1 p.2))
  obtain ⟨d4, h4⟩ := Option.isSome_iff_exists.mp
    (passL_isSome (lottieF app) d3 (fun p _ => lottieF_total app p.1 p.2))
  obtain ⟨d5, h5⟩ := Option.isSome_iff_exists.mp
    (passL_isSome dataForF d4 (fun p _ => dataForF_total p.1 p.2))
  have hh5 : "html" ∈ namesL d5 := by
    rw [pass_names _ _ _ h5, pass_names _ _ _ h4, pass_names _ _ _ h3,
      pass_names _ _ _ h2, pass_names _ _ _ h1]
    exact hh
  obtain ⟨d6, h6⟩ := Option.isSome_iff_exists.mp
    ((surgL_isSome_iff "html" gHtml d5).mpr hh5)
  obtain ⟨d7, h7⟩ := Option.isSome_iff_exists.mp
    (passL_isSome formF d6 (fun p _ => formF_total p.1 p.2))
  have hb7 : "body" ∈ namesL d7 := by
    rw [pass_names _ _ _ h7, surg_names_eq "html" gHtml gHtml_elems d5 d6 h6,
      pass_names _ _ _ h5, pass_names _ _ _ h4, pass_names _ _ _ h3,
      pass_names _ _ _ h2, pass_names _ _ _ h1]
    exact hb
  obtain ⟨d8, h8⟩ := Option.isSome_iff_exists.mp
    ((surgL_isSome_iff "body" gBody d7).mpr hb7)
  exact ⟨d8, by simp [update, formsAsync, h1, h2, h3, h4, h5, h6, h7, h8]⟩

/-- One run of update_html adds exactly one load-static text, one CSRF marker
per form, and one async-form script body. -/
theorem update_counts (app : String) (d d' : Doc) (h : update app d = some d') :
    ctL loadStaticTag d' = ctL loadStaticTag d + 1 ∧
    ctL csrfTag d' = ctL csrfTag d + cnL "form" d ∧
    ctL makeFormsAsync d' = ctL makeFormsAsync d + 1 := by
  obtain ⟨d1, d2, d3, d4, d5, d6, d7, h1, h2, h3, h4, h5, h6, h7, h8⟩ :=
    update_decomp app d d' h
  have k1 := fun s => ct_passL (linkF app) s
    (fun n a r hr => ins_empty_ne s (linkF_ins app n a r hr)) d d1 h1
  have k2 := fun s => ct_passL (imgF app) s
    (fun n a r hr => ins_empty_ne s (imgF_ins app n a r hr)) d1 d2 h2
  have k3 := fun s => ct_passL (scriptF app) s
    (fun n a r hr => ins_empty_ne s (scriptF_ins app n a r hr)) d2 d3 h3
  have k4 := fun s => ct_passL (lottieF app) s
    (fun n a r hr => ins_empty_ne s (lottieF_ins app n a r hr)) d3 d4 h4
  have cn6 : cnL "form" d6 = cnL "form" d := by
    rw [cn_namesL, surg_names_eq "html" gHtml gHtml_elems d5 d6 h6,
      pass_names _ _ _ h5, pass_names _ _ _ h4, pass_names _ _ _ h3,
      pass_names _ _ _ h2, pass_names _ _ _ h1, ← cn_namesL]
  refine ⟨?_, ?_, ?_⟩
  · have k5 := ct_passL dataForF loadStaticTag
      (dataForF_ct _ forOpen_ne_load (by decide) interp_ne_load) d4 d5 h5
    have k6 := ct_surgL "html" gHtml loadStaticTag 1 gHtml_ct_load d5 d6 h6
    have k7 := ct_passL formF loadStaticTag (formF_ct _ (by decide)) d6 d7 h7
    have k8 := ct_surgL "body" gBody loadStaticTag 0
      (gBody_ct_other _ (by decide)) d7 d' h8
    have e1 := k1 loadStaticTag
    have e2 := k2 loadStaticTag
    have e3 := k3 loadStaticTag
    have e4 := k4 loadStaticTag
    omega
  · have k5 := ct_passL dataForF csrfTag
      (dataForF_ct _ forOpen_ne_csrf (by decide) interp_ne_csrf) d4 d5 h5
    have k6 := ct_surgL "html" gHtml csrfTag 0
      (gHtml_ct_other _ (by decide)) d5 d6 h6
    have k7 := form_csrf_L d6 d7 h7
    have k8 := ct_surgL "body" gBody csrfTag 0
      (gBody_ct_other _ (by decide)) d7 d' h8
    have e1 := k1 csrfTag
    have e2 := k2 csrfTag
    have e3 := k3 csrfTag
    have e4 := k4 csrfTag
    omega
  · have k5 := ct_passL dataForF makeFormsAsync
      (dataForF_ct _ forOpen_ne_async (by decide) interp_ne_async) d4 d5 h5
    have k6 := ct_surgL "html" gHtml makeFormsAsync 0
      (gHtml_ct_other _ (by decide)) d5 d6 h6
    have k7 := ct_passL formF makeFormsAsync (formF_ct _ (by decide)) d6 d7 h7
    have k8 := ct_surgL "body" gBody makeFormsAsync 1 gBody_ct_async d7 d' h8
    have e1 := k1 makeFormsAsync
    have e2 := k2 makeFormsAsync
    have e3 := k3 makeFormsAsync
    have e4 := k4 makeFormsAsync
    omega

/- ------------------------------------------------------------------ -/
/- Failure propagation (C6) and the forms pass (C5).                  -/
/- ------------------------------------------------------------------ -/

/-- A structurally defective document: some link lacks href, or some img lacks
src, or there is no html element, or no body element. -/
def BadDoc (d : Doc) : Prop :=
  (∃ p ∈ elemsL d, p.1 = "link" ∧ getAttr p.2 "href" = none) ∨
  (∃ p ∈ elemsL d, p.1 = "img" ∧ getAttr p.2 "src" = none) ∨
  "html" ∉ namesL d ∨ "body" ∉ namesL d

theorem update_none_of_bad (app : String) (d : Doc) (hb : BadDoc d) :
    update app d = none := by
  rcases hb with ⟨p, hp, hl, hn⟩ | ⟨p, hp, hi, hn⟩ | hh | hbody
  · have hf : linkF app p.1 p.2 = none := by
      rw [hl]
      exact linkF_none app p.2 hn
    have h1 := passL_none (linkF app) d p hp hf
    simp [update, h1]
  · cases h1 : passL (linkF app) d with
    | none => simp [update, h1]
    | some d1 =>
      have hf2 : linkF app p.1 p.2 = some (p.2, []) := by
        rw [hi]
        exact linkF_other app "img" p.2 (by decide)
      have hmem : p ∈ elemsL d1 := by
        rw [elems_passL _ _ _ h1]
        refine List.mem_map.mpr ⟨p, hp, ?_⟩
        simp [locAttrs, hf2]
      have hf : imgF app p.1 p.2 = none := by
        rw [hi]
        exact imgF_none app p.2 hn
      have h2 := passL_none (imgF app) d1 p hmem hf
      simp [update, h1, h2]
  · cases h1 : passL (linkF app) d with
    | none => simp [update, h1]
    | some d1 =>
      cases h2 : passL (imgF app) d1 with
      | none => simp [update, h1, h2]
      | some d2 =>
        cases h3 : passL (scriptF app) d2 with
        | none => simp [update, h1, h2, h3]
        | some d3 =>
          cases h4 : passL (lottieF app) d3 with
          | none => simp [update, h1, h2, h3, h4]
          | some d4 =>
            cases h5 : passL dataForF d4 with
            | none => simp [update, h1, h2, h3, h4, h5]
            | some d5 =>
              have hn5 : "html" ∉ namesL d5 := by
                rw [pass_names _ _ _ h5, pass_names _ _ _ h4, pass_names _ _ _ h3,
                  pass_names _ _ _ h2, pass_names _ _ _ h1]
                exact hh
              have h6 := surgL_none "html" gHtml d5 hn5
              simp [update, h1, h2, h3, h4, h5, h6]
  · cases h1 : passL (linkF app) d with
    | none => simp [update, h1]
    | some d1 =>
      cases h2 : passL (imgF app) d1 with
      | none => simp [update, h1, h2]
      | some d2 =>
        cases h3 : passL (scriptF app) d2 with
        | none => simp [update, h1, h2, h3]
        | some d3 =>
          cases h4 : passL (lottieF app) d3 with
          | none => simp [update, h1, h2, h3, h4]
          | some d4 =>
            cases h5 : passL dataForF d4 with
            | none => simp [update, h1, h2, h3, h4, h5]
            | some d5 =>
              cases h6 : surgL "html" gHtml d5 with
              | none => simp [update, h1, h2, h3, h4, h5, h6]
              | some d6 =>
                cases h7 : passL formF d6 with
                | none => simp [update, formsAsync, h1, h2, h3, h4, h5, h6, h7]
                | some d7 =>
                  have hb7 : "body" ∉ namesL d7 := by
                    rw [pass_names _ _ _ h7,
                      surg_names_eq "html" gHtml gHtml_elems d5 d6 h6,
                      pass_names _ _ _ h5, pass_names _ _ _ h4, pass_names _ _ _ h3,
                      pass_names _ _ _ h2, pass_names _ _ _ h1]
                    exact hbody
                  have h8 := surgL_none "body" gBody d7 hb7
                  simp [update, formsAsync, h1, h2, h3, h4, h5, h6, h7, h8]

theorem formsOkL_append (a b : List Node) :
    formsOkL (a ++ b) = (formsOkL a && formsOkL b) := by
  induction a with
  | nil => simp [formsOkL]
  | cons x xs ih => simp [formsOkL, ih, Bool.and_assoc]

mutual

theorem formsOk_passN : ∀ x x', passN formF x = some x' → formsOkN x' = true
  | .text t, x', h => by
      simp only [passN, Option.some.injEq] at h
      subst h
      rfl
  | .elem n a c, x', h => by
      cases hfe : formF n a with
      | none => simp [passN, hfe] at h
      | some r =>
        cases hce : passL formF c with
        | none => simp [passN, hfe, hce] at h
        | some c' =>
          have ih := formsOk_passL c c' hce
          simp only [passN, hfe, hce, Option.some.injEq] at h
          subst h
          by_cases hn : n = "form"
          · have hr : r = (a, [((0 : Int), csrfTag)]) := by
              unfold formF at hfe
              rw [if_pos hn] at hfe
              exact (Option.some.inj hfe).symm
            rw [hr]
            simp only [applyIns, List.foldl_cons, List.foldl_nil, pyInsert_zero]
            simp [formsOkN, formsOkL, hn, ih]
          · have hr : r = (a, ([] : Ins)) := by
              unfold formF at hfe
              rw [if_neg hn] at hfe
              exact (Option.some.inj hfe).symm
            rw [hr]
            simp only [applyIns, List.foldl_nil]
            simp [formsOkN, hn, ih]

theorem formsOk_passL : ∀ l l', passL formF l = some l' → formsOkL l' = true
  | [], l', h => by
      simp only [passL, Option.some.injEq] at h
      subst h
      rfl
  | x :: xs, l', h => by
      cases hx : passN formF x with
      | none => simp [passL, hx] at h
      | some x' =>
        cases hxs : passL formF xs with
        | none => simp [passL, hx, hxs] at h
        | some xs' =>
          have ih1 := formsOk_passN x x' hx
          have ih2 := formsOk_passL xs xs' hxs
          simp only [passL, hx, hxs, Option.some.injEq] at h
          subst h
          simp [formsOkL, ih1, ih2]

end

mutual

theorem formsOk_surgN : ∀ x x', surgN "body" gBody x = some x' →
    formsOkN x = true → formsOkN x' = true
  | .text t, x', h, _ => by simp [surgN] at h
  | .elem n a c, x', h, hok => by
      by_cases hn : n = "body"
      · simp only [surgN, hn, if_true, Option.some.injEq] at h
        subst h
        simp only [formsOkN, Bool.and_eq_true] at hok ⊢
        obtain ⟨hok1, hok2⟩ := hok
        refine ⟨by simp, ?_⟩
        unfold gBody
        rw [formsOkL_append]
        simp only [hok2, Bool.true_and]
        decide
      · simp only [surgN, hn, if_false] at h
        cases hc : surgL "body" gBody c with
        | none => rw [hc] at h; exact absurd h (by simp)
        | some c' =>
          rw [hc] at h
          simp only [Option.some.injEq] at h
          subst h
          simp only [formsOkN, Bool.and_eq_true] at hok ⊢
          obtain ⟨hok1, hok2⟩ := hok
          refine ⟨?_, formsOk_surgL c c' hc hok2⟩
          by_cases hf : n = "form"
          · rw [if_pos hf] at hok1 ⊢
            cases hcc : c with
            | nil =>
              rw [hcc] at hc
              simp [surgL] at hc
            | cons x xs =>
              rw [hcc] at hok1
              cases x with
              | text t =>
                rw [hcc] at hc
                simp only [surgL, surgN] at hc
                cases hxs : surgL "body" gBody xs with
                | none => rw [hxs] at hc; simp at hc
                | some xs' =>
                  rw [hxs] at hc
                  simp only [Option.some.injEq] at hc
                  subst hc
                  simpa using hok1
              | elem m b cc =>
                rw [hcc] at hc
                simp at hok1
          · rw [if_neg hf]

theorem formsOk_surgL : ∀ l l', surgL "body" gBody l = some l' →
    formsOkL l = true → formsOkL l' = true
  | [], l', h, _ => by simp [surgL] at h
  | x :: xs, l', h, hok => by
      simp only [formsOkL, Bool.and_eq_true] at hok
      cases hx : surgN "body" gBody x with
      | some x' =>
        rw [surgL, hx] at h
        simp only [Option.some.injEq] at h
        subst h
        simp only [formsOkL, Bool.and_eq_true]
        exact ⟨formsOk_surgN x x' hx hok.1, hok.2⟩
      | none =>
        rw [surgL, hx] at h
        cases hxs : surgL "body" gBody xs with
        | none => rw [hxs] at h; exact absurd h (by simp)
        | some xs' =>
          rw [hxs] at h
          simp only [Option.some.injEq] at h
          subst h
          simp only [formsOkL, Bool.and_eq_true]
          exact ⟨hok.1, formsOk_surgL xs xs' hxs hok.2⟩

end

/- ------------------------------------------------------------------ -/
/- The srcset substitution on well-formed srcset values (C2).         -/
/- ------------------------------------------------------------------ -/

theorem reSubGo_nil (app : String) : ∀ fuel, reSubGo app fuel [] = []
  | 0 => rfl
  | _ + 1 => rfl

theorem takeWhile_all_append (p tail : List Char) (hpns : ∀ ch ∈ p, ch ≠ ' ')
    (ht : tail = [] ∨ ∃ t', tail = ' ' :: t') :
    (p ++ tail).takeWhile (fun ch => ch != ' ') = p := by
  induction p with
  | nil =>
    rcases ht with rfl | ⟨t', rfl⟩
    · rfl
    · simp [List.takeWhile]
  | cons c cs ih =>
    have hc : c ≠ ' ' := hpns c (by simp)
    simp only [List.cons_append, List.takeWhile_cons]
    rw [if_pos (by simp [hc])]
    rw [ih (fun ch hch => hpns ch (by simp [hch]))]

theorem no_start_region (d0 tail : List Char) (hd : ∀ ch ∈ d0, ch ≠ 'i') :
    ∀ a b, d0 = a ++ b → b ≠ [] → startsL imgsSlash (b ++ tail) = false := by
  intro a b hab hb
  cases b with
  | nil => exact absurd rfl hb
  | cons bh bt =>
    have hbh : bh ∈ d0 := by
      rw [hab]
      simp
    have hne : bh ≠ 'i' := hd bh hbh
    simp only [imgsSlash, List.cons_append, startsL]
    rw [show (('i' == bh) = false) from beq_eq_false_iff_ne.mpr (Ne.symm hne)]
    rfl

theorem reSubGo_skip (app : String) :
    ∀ (pre : List Char) (tail : List Char) (fuel : Nat),
    pre.length + tail.length ≤ fuel →
    (∀ a b, pre = a ++ b → b ≠ [] → startsL imgsSlash (b ++ tail) = false) →
    reSubGo app fuel (pre ++ tail) = pre ++ reSubGo app (fuel - pre.length) tail := by
  intro pre
  induction pre with
  | nil =>
    intro tail fuel _ _
    simp
  | cons c pre' ih =>
    intro tail fuel hf hC
    cases fuel with
    | zero => simp at hf
    | succ f =>
      have hm : startsL imgsSlash (c :: (pre' ++ tail)) = false := by
        have := hC [] (c :: pre') rfl (by simp)
        simpa using this
      show reSubGo app (f + 1) (c :: (pre' ++ tail)) = _
      rw [reSubGo]
      rw [hm]
      simp only [Bool.false_eq_true, if_false]
      rw [ih tail f (by simp at hf; omega)
        (fun a b hab hb => hC (c :: a) b (by rw [hab]; rfl) hb)]
      simp only [List.cons_append, List.length_cons]
      rw [Nat.succ_sub_succ]

theorem reSubGo_match (app : String) (p tail : List Char) (fuel : Nat)
    (hp : p ≠ []) (hpns : ∀ ch ∈ p, ch ≠ ' ')
    (ht : tail = [] ∨ ∃ t', tail = ' ' :: t') :
    reSubGo app (fuel + 1) (imgsSlash ++ p ++ tail) =
      replPath app p ++ reSubGo app fuel tail := by
  have hs : imgsSlash ++ p ++ tail =
      'i' :: 'm' :: 'a' :: 'g' :: 'e' :: 's' :: '/' :: (p ++ tail) := by
    simp [imgsSlash]
  rw [hs]
  rw [reSubGo]
  have hguard : startsL imgsSlash
      ('i' :: 'm' :: 'a' :: 'g' :: 'e' :: 's' :: '/' :: (p ++ tail)) = true := rfl
  rw [hguard]
  simp only [if_true, List.drop_succ_cons, List.drop_zero]
  rw [takeWhile_all_append p tail hpns ht]
  rw [show p.isEmpty = false from by cases p with
    | nil => exact absurd rfl hp
    | cons x xs => rfl]
  simp only [Bool.false_eq_true, if_false]
  rw [List.drop_left]

/-- A structurally well-formed srcset entry list: non-empty space-free paths,
descriptors free of the letter i (so no new `images/` occurrence starts inside
a descriptor). -/
def entryOk (pd : List Char × List Char) : Prop :=
  pd.1 ≠ [] ∧ (∀ ch ∈ pd.1, ch ≠ ' ') ∧ (∀ ch ∈ pd.2, ch ≠ 'i')

instance (pd : List Char × List Char) : Decidable (entryOk pd) := by
  unfold entryOk
  infer_instance

/-- `images/<p1> <d1>, images/<p2> <d2>, ...` -/
def srcsetOfEntries : List (List Char × List Char) → List Char
  | [] => []
  | [(p, d)] => imgsSlash ++ p ++ (' ' :: d)
  | (p, d) :: e :: rest =>
      imgsSlash ++ p ++ (' ' :: (d ++ ',' :: ' ' :: srcsetOfEntries (e :: rest)))

/-- The same srcset with every `images/<path>` occurrence replaced by the
static reference and all descriptors and separators untouched. -/
def rewrittenOfEntries (app : String) : List (List Char × List Char) → List Char
  | [] => []
  | [(p, d)] => replPath app p ++ (' ' :: d)
  | (p, d) :: e :: rest =>
      replPath app p ++ (' ' :: (d ++ ',' :: ' ' :: rewrittenOfEntries app (e :: rest)))

theorem reSub_entries (app : String) :
    ∀ es : List (List Char × List Char), (∀ pd ∈ es, entryOk pd) →
    ∀ fuel, (srcsetOfEntries es).length ≤ fuel →
    reSubGo app fuel (srcsetOfEntries es) = rewrittenOfEntries app es
  | [], _, fuel, _ => by
      rw [show srcsetOfEntries [] = [] from rfl, reSubGo_nil]
      rfl
  | [(p, d)], hok, fuel, hf => by
      obtain ⟨hp, hpns, hdns⟩ := hok (p, d) (by simp)
      rw [show srcsetOfEntries [(p, d)] = imgsSlash ++ p ++ (' ' :: d) from rfl] at hf ⊢
      cases fuel with
      | zero => simp [imgsSlash] at hf
      | succ f =>
        rw [reSubGo_match app p (' ' :: d) f hp hpns (Or.inr ⟨d, rfl⟩)]
        have hskip := reSubGo_skip app (' ' :: d) [] f
          (by simp [imgsSlash] at hf ⊢; omega)
          (no_start_region (' ' :: d) []
            (by intro ch hch; rcases List.mem_cons.mp hch with rfl | hch
                · decide
                · exact hdns ch hch))
        rw [List.append_nil] at hskip
        rw [hskip, reSubGo_nil, List.append_nil]
        rfl
  | (p, d) :: e :: rest, hok, fuel, hf => by
      obtain ⟨hp, hpns, hdns⟩ := hok (p, d) (by simp)
      rw [show srcsetOfEntries ((p, d) :: e :: rest) =
        imgsSlash ++ p ++ (' ' :: (d ++ ',' :: ' ' :: srcsetOfEntries (e :: rest)))
        from rfl] at hf ⊢
      cases fuel with
      | zero => simp [imgsSlash] at hf
      | succ f =>
        rw [reSubGo_match app p _ f hp hpns (Or.inr ⟨_, rfl⟩)]
        have hper : (' ' :: (d ++ ',' :: ' ' :: srcsetOfEntries (e :: rest))) =
            (' ' :: (d ++ [',', ' '])) ++ srcsetOfEntries (e :: rest) := by
          simp
        rw [hper]
        have hskip := reSubGo_skip app (' ' :: (d ++ [',', ' '])) (srcsetOfEntries (e :: rest)) f
          (by simp [imgsSlash] at hf ⊢; omega)
          (no_start_region _ _
            (by intro ch hch
                rcases List.mem_cons.mp hch with rfl | hch
                · decide
                · rcases List.mem_append.mp hch with hch | hch
                  · exact hdns ch hch
                  · rcases List.mem_cons.mp hch with rfl | hch
                    · decide
                    · rcases List.mem_cons.mp hch with rfl | hch
                      · decide
                      · simp at hch))
        rw [hskip]
        rw [reSub_entries app (e :: rest) (fun pd hpd => hok pd (by simp [hpd])) _
          (by simp [imgsSlash] at hf ⊢; omega)]
        rw [show rewrittenOfEntries app ((p, d) :: e :: rest) =
          replPath app p ++ (' ' :: (d ++ ',' :: ' ' :: rewrittenOfEntries app (e :: rest)))
          from rfl]
        simp

theorem reSubImages_entries (app : String) (es : List (List Char × List Char))
    (h : ∀ pd ∈ es, entryOk pd) :
    reSubImages app ⟨srcsetOfEntries es⟩ = ⟨rewrittenOfEntries app es⟩ := by
  unfold reSubImages
  congr 1
  exact reSub_entries app es h _ le_rfl

theorem srcset_starts (p d : List Char) (rest : List (List Char × List Char)) :
    strStarts ⟨srcsetOfEntries ((p, d) :: rest)⟩ "images" = true := by
  cases rest <;> rfl

/- ------------------------------------------------------------------ -/
/- Lemmas about the static-asset move phase (C7, C8, C9).             -/
/- ------------------------------------------------------------------ -/

theorem lookupE_set_self (l : List (String × FsEntry)) (k : String) (e : FsEntry) :
    lookupE (setE l k e) k = some e := by
  induction l with
  | nil => simp [setE, lookupE]
  | cons p rest ih =>
    by_cases h : p.1 = k
    · simp [setE, lookupE, h]
    · simp [setE, lookupE, h, ih]

theorem lookupE_set_ne (l : List (String × FsEntry)) (k k' : String) (e : FsEntry)
    (h : k ≠ k') : lookupE (setE l k e) k' = lookupE l k' := by
  induction l with
  | nil => simp [setE, lookupE, h]
  | cons p rest ih =>
    by_cases hp : p.1 = k
    · simp [setE, lookupE, hp, h]
    · by_cases hp' : p.1 = k'
      · simp [setE, lookupE, hp, hp', Ne.symm h]
      · simp [setE, lookupE, hp, hp', ih]

theorem eraseE_head (e : String × FsEntry) (tail : List (String × FsEntry)) :
    eraseE (e :: tail) e.1 = tail := by
  cases e
  simp [eraseE]

theorem fold_workCat (app t : String) :
    ∀ (es : List (String × FsEntry)) (st : FsCatState), st.workCat = some es →
      ((es.foldl (moveOne app t) st).workCat = some []) := by
  intro es
  induction es with
  | nil => intro st h; simpa using h
  | cons e tail ih =>
    intro st h
    simp only [List.foldl_cons]
    apply ih
    simp [moveOne, h, eraseE_head]

theorem fold_destExists (app t : String) :
    ∀ (es : List (String × FsEntry)) (st : FsCatState),
      (es.foldl (moveOne app t) st).destExists = st.destExists := by
  intro es
  induction es with
  | nil => intro st; rfl
  | cons e tail ih =>
    intro st
    simp only [List.foldl_cons]
    rw [ih]
    rfl

theorem fold_record (app t : String) :
    ∀ (es : List (String × FsEntry)) (st : FsCatState),
      (es.foldl (moveOne app t) st).record = st.record ++ es.map Prod.fst := by
  intro es
  induction es with
  | nil => intro st; simp
  | cons e tail ih =>
    intro st
    simp only [List.foldl_cons]
    rw [ih]
    simp [moveOne]

theorem fold_dest_untouched (app t : String) :
    ∀ (es : List (String × FsEntry)) (st : FsCatState) (k : String),
      k ∉ es.map Prod.fst →
      lookupE ((es.foldl (moveOne app t) st).destCat) k = lookupE st.destCat k := by
  intro es
  induction es with
  | nil => intros; rfl
  | cons e tail ih =>
    intro st k hk
    simp only [List.map_cons, List.mem_cons] at hk
    push_neg at hk
    simp only [List.foldl_cons]
    rw [ih _ k hk.2]
    show lookupE (setE st.destCat e.1 e.2) k = _
    rw [lookupE_set_ne _ _ _ _ (Ne.symm hk.1)]

theorem fold_dest (app t : String) :
    ∀ (es : List (String × FsEntry)) (st : FsCatState),
      (es.map Prod.fst).Nodup →
      ∀ e ∈ es, lookupE ((es.foldl (moveOne app t) st).destCat) e.1 = some e.2 := by
  intro es
  induction es with
  | nil => simp
  | cons e0 tail ih =>
    intro st hnd e he
    simp only [List.map_cons, List.nodup_cons] at hnd
    rcases List.mem_cons.mp he with rfl | he
    · simp only [List.foldl_cons]
      rw [fold_dest_untouched app t tail _ e.1 hnd.1]
      show lookupE (setE st.destCat e.1 e.2) e.1 = some e.2
      rw [lookupE_set_self]
    · simp only [List.foldl_cons]
      exact ih _ hnd.2 e he

/- ------------------------------------------------------------------ -/
/- Claim theorems.                                                    -/
/- ------------------------------------------------------------------ -/

def c1doc : Doc :=
  [.elem "html" [] [.elem "body" []
    [.elem "ul" [("data-for", "item in items")]
      [.elem "li" [] [.text "A"], .elem "li" [] [.text "B"]]]]]

/-- Claim C1 (evaluation at the failing input): for a `ul` with
`data-for="item in items"` and two `li` children, update_html inserts the
for-loop-open marker as the first child but places `\x7b% endfor %\x7d` BEFORE
the element's last original child — `Tag.insert(-1, ...)` inserts before the
last list element, not after it — so the close marker does not appear after
all of the element's original children as the claim states. -/
theorem claim_c1_eval : update "app" c1doc = some
    [.elem "html" [] [.text loadStaticTag, .elem "body" []
      [.elem "ul" [("data-for", "item in items")]
        [.text (forOpen "item in items"), .elem "li" [] [.text "A"],
          .text forClose, .elem "li" [] [.text "B"]],
       asyncScriptNode]]] := rfl

/-- Claim C2: for an img whose srcset is a well-formed comma-separated entry
list `images/<p1> <d1>, images/<p2> <d2>, ...`, the rewrite replaces every
`images/<path>` occurrence (path = maximal non-space run) with the static
reference and leaves descriptors, spaces and commas verbatim; an img whose
srcset does not begin with `images` has its srcset left untouched. -/
theorem claim_c2 (app : String) (p0 d0 : List Char)
    (rest : List (List Char × List Char))
    (hok : ∀ pd ∈ ((p0, d0) :: rest), entryOk pd) :
    (∀ (a : Attrs) (src : String), getAttr a "src" = some src →
      getAttr a "srcset" = some ⟨srcsetOfEntries ((p0, d0) :: rest)⟩ →
      (imgF app "img" a).map (fun r => getAttr r.1 "srcset") =
        some (some ⟨rewrittenOfEntries app ((p0, d0) :: rest)⟩)) ∧
    (∀ (a : Attrs) (src t : String), getAttr a "src" = some src →
      getAttr a "srcset" = some t → strStarts t "images" = false →
      (imgF app "img" a).map (fun r => getAttr r.1 "srcset") = some (some t)) := by
  constructor
  · intro a src hsrc hss
    by_cases hc : strStarts src "images" = true
    · have hset : getAttr (setAttr a "src" (staticRef app src)) "srcset"
          = some ⟨srcsetOfEntries ((p0, d0) :: rest)⟩ := by
        rw [getAttr_set_ne _ "src" "srcset" _ (by decide)]
        exact hss
      simp [imgF, hsrc, hc, hset, srcset_starts, getAttr_set_self,
        reSubImages_entries app _ hok]
    · simp [imgF, hsrc, hc, hss, srcset_starts, getAttr_set_self,
        reSubImages_entries app _ hok]
  · intro a src t hsrc hss hns
    by_cases hc : strStarts src "images" = true
    · have hset : getAttr (setAttr a "src" (staticRef app src)) "srcset" = some t := by
        rw [getAttr_set_ne _ "src" "srcset" _ (by decide)]
        exact hss
      simp [imgF, hsrc, hc, hset, hns]
    · simp [imgF, hsrc, hc, hss, hns]

theorem claim_c2_witness :
    (imgF "web" "img" [("src", "x.png"), ("srcset", "images/a 1x")]).map
        (fun r => getAttr r.1 "srcset") =
      some (some "\x7b% static \x27web/images/a\x27 %\x7d 1x") ∧
    (imgF "web" "img" [("src", "x.png"), ("srcset", "y.png 1x")]).map
        (fun r => getAttr r.1 "srcset") = some (some "y.png 1x") := by
  constructor
  · exact (claim_c2 "web" ['a'] ['1', 'x'] [] (by decide)).1 _ "x.png" rfl rfl
  · exact (claim_c2 "web" ['a'] ['1', 'x'] [] (by decide)).2 _ "x.png" "y.png 1x" rfl rfl
      (by decide)

/-- Claim C3: update_html is not idempotent.  If one run succeeds, a second run
on its output also succeeds and inserts a second load-static text, a second
CSRF marker per form, and a second async-form script body, so the second
output differs from the first. -/
theorem claim_c3 (app : String) (d d1 : Doc) (h : update app d = some d1) :
    ∃ d2, update app d1 = some d2 ∧
      ctL loadStaticTag d2 = ctL loadStaticTag d1 + 1 ∧
      ctL csrfTag d2 = ctL csrfTag d1 + cnL "form" d1 ∧
      ctL makeFormsAsync d2 = ctL makeFormsAsync d1 + 1 ∧
      d2 ≠ d1 := by
  obtain ⟨d2, h2⟩ := update_some app d1 (update_good app d d1 h)
  obtain ⟨cl, cc, ca⟩ := update_counts app d1 d2 h2
  refine ⟨d2, h2, cl, cc, ca, ?_⟩
  intro he
  rw [he] at cl
  omega

def c3doc : Doc := [.elem "html" [] [.elem "body" [] []]]

def c3doc1 : Doc :=
  [.elem "html" [] [.text loadStaticTag, .elem "body" [] [asyncScriptNode]]]

theorem claim_c3_witness :
    ∃ d2, update "web" c3doc1 = some d2 ∧
      ctL loadStaticTag d2 = ctL loadStaticTag c3doc1 + 1 ∧
      ctL csrfTag d2 = ctL csrfTag c3doc1 + cnL "form" c3doc1 ∧
      ctL makeFormsAsync d2 = ctL makeFormsAsync c3doc1 + 1 ∧
      d2 ≠ c3doc1 :=
  claim_c3 "web" c3doc c3doc1 rfl

def c4doc : Doc :=
  [.elem "html" [] [.elem "body" []
    [.elem "span" [("data-for", "item.name")] [.text "X"]]]]

/-- Claim C4 counterexample: a `span` carrying `data-for="item.name"` is not
matched by the pass (which finds only div, img, li, ul), so no interpolation is
inserted as its first child — its children stay `[text "X"]`, not
`[interpolation, text "X"]` as the claim predicts for "every other element
type". -/
theorem claim_c4_counterexample :
    update "app" c4doc = some
      [.elem "html" [] [.text loadStaticTag, .elem "body" []
        [.elem "span" [("data-for", "item.name")] [.text "X"], asyncScriptNode]]] ∧
    ([.elem "html" [] [.text loadStaticTag, .elem "body" []
        [.elem "span" [("data-for", "item.name")] [.text "X"], asyncScriptNode]]] : Doc) ≠
      [.elem "html" [] [.text loadStaticTag, .elem "body" []
        [.elem "span" [("data-for", "item.name")]
          [.text (interpTag "item.name"), .text "X"], asyncScriptNode]]] := by
  constructor
  · rfl
  · decide

/-- Claim C4 (amended): the dynamic-collection pass matches only div, img, li
and ul elements carrying data-for.  For a no-space value: an img has its src
overwritten with the interpolation; a div, li, or ul gets the interpolation
inserted at position 0 (so as its first child) with attributes otherwise
unchanged; an element of any other name is left untouched by the pass. -/
theorem claim_c4_amended (n : String) (a : Attrs) (v : String)
    (hv : getAttr a "data-for" = some v) (hs : ¬ (splitSp v.data).length > 1) :
    (n = "img" → dataForF n a = some (setAttr a "src" (interpTag v), [])) ∧
    ((n = "div" ∨ n = "li" ∨ n = "ul") →
      dataForF n a = some (a, [((0 : Int), interpTag v)]) ∧
      ∀ c : List Node, applyIns [((0 : Int), interpTag v)] c = .text (interpTag v) :: c) ∧
    (¬ (n = "div" ∨ n = "img" ∨ n = "li" ∨ n = "ul") → dataForF n a = some (a, [])) := by
  refine ⟨?_, ?_, ?_⟩
  · intro hn
    subst hn
    simp [dataForF, hv, hs]
  · intro hn
    have happ : ∀ c : List Node,
        applyIns [((0 : Int), interpTag v)] c = .text (interpTag v) :: c := by
      intro c
      simp [applyIns, pyInsert_zero]
    rcases hn with rfl | rfl | rfl <;> exact ⟨by simp [dataForF, hv, hs], happ⟩
  · intro hn
    simp [dataForF, hn]

theorem claim_c4_witness :
    (("div" : String) = "img" → dataForF "div" [("data-for", "item.name")] =
      some (setAttr [("data-for", "item.name")] "src" (interpTag "item.name"), [])) ∧
    ((("div" : String) = "div" ∨ ("div" : String) = "li" ∨ ("div" : String) = "ul") →
      dataForF "div" [("data-for", "item.name")] =
        some ([("data-for", "item.name")], [((0 : Int), interpTag "item.name")]) ∧
      ∀ c : List Node, applyIns [((0 : Int), interpTag "item.name")] c =
        .text (interpTag "item.name") :: c) ∧
    (¬ (("div" : String) = "div" ∨ ("div" : String) = "img" ∨
        ("div" : String) = "li" ∨ ("div" : String) = "ul") →
      dataForF "div" [("data-for", "item.name")] = some ([("data-for", "item.name")], [])) :=
  claim_c4_amended "div" [("data-for", "item.name")] "item.name" rfl (by decide)

/-- Claim C5: in the form-augmentation pass, every form element of the result
has the CSRF marker as its first child, and exactly one script element holding
the async form-submission handler body is appended per document (the count of
that handler text rises by exactly one), after the per-form loop has run. -/
theorem claim_c5 (d d' : Doc) (h : formsAsync d = some d') :
    formsOkL d' = true ∧ ctL makeFormsAsync d' = ctL makeFormsAsync d + 1 := by
  unfold formsAsync at h
  rw [Option.bind_eq_some] at h
  obtain ⟨d7, h7, h8⟩ := h
  refine ⟨formsOk_surgL d7 d' h8 (formsOk_passL d d7 h7), ?_⟩
  have a7 := ct_passL formF makeFormsAsync (formF_ct _ (by decide)) d d7 h7
  have a8 := ct_surgL "body" gBody makeFormsAsync 1 gBody_ct_async d7 d' h8
  omega

def c5doc : Doc := [.elem "body" [] [.elem "form" [("action", "/x")] [.text "hi"]]]

def c5out : Doc :=
  [.elem "body" [] [.elem "form" [("action", "/x")] [.text csrfTag, .text "hi"],
    asyncScriptNode]]

theorem claim_c5_witness :
    formsOkL c5out = true ∧ ctL makeFormsAsync c5out = ctL makeFormsAsync c5doc + 1 :=
  claim_c5 c5doc c5out rfl

/-- Claim C6: a document with a link lacking href, an img lacking src, no html
element, or no body element makes update_html fail (an unhandled error); in a
sequential run over many documents, the run aborts there: the documents before
it are already rewritten and remain, and no later document is processed. -/
theorem claim_c6 (app : String) (d : Doc) (hb : BadDoc d) :
    update app d = none ∧
    ∀ pre post : List Doc, (∀ q ∈ pre, (update app q).isSome) →
      (runDocs app (pre ++ d :: post)).2 = true ∧
      (runDocs app (pre ++ d :: post)).1.length = pre.length := by
  have hu := update_none_of_bad app d hb
  refine ⟨hu, ?_⟩
  intro pre post hpre
  induction pre with
  | nil => simp [runDocs, hu]
  | cons q qs ih =>
    have hq : (update app q).isSome := hpre q (by simp)
    cases hq2 : update app q with
    | none => rw [hq2] at hq; simp at hq
    | some q' =>
      have hrec := ih (fun r hr => hpre r (by simp [hr]))
      constructor
      · simp [runDocs, hq2, hrec.1]
      · simp [runDocs, hq2, hrec.2]

def c6bad : Doc := [.elem "html" [] []]

def c6good : Doc := [.elem "html" [] [.elem "body" [] []]]

theorem claim_c6_witness :
    update "web" c6bad = none ∧
    (runDocs "web" ([c6good] ++ c6bad :: [[]])).2 = true ∧
    (runDocs "web" ([c6good] ++ c6bad :: [[]])).1.length = 1 := by
  have h := claim_c6 "web" c6bad (Or.inr (Or.inr (Or.inr (by decide))))
  have h2 := h.2 [c6good] [[]] (by decide)
  exact ⟨h.1, h2.1, h2.2⟩

/-- Claim C7: for a present category directory, the move phase is exhaustive
and exclusive: every listed entry afterwards resolves at the destination to
its original content, the source directory is left empty (each entry was
renamed away), and the recorded list gains exactly the entry names in order. -/
theorem claim_c7 (app t : String) (s : FsCatState) (es : List (String × FsEntry))
    (hw : s.workCat = some es) (hnd : (es.map Prod.fst).Nodup) :
    (∀ e ∈ es, lookupE (moveStaticFile app t s).destCat e.1 = some e.2) ∧
    (moveStaticFile app t s).workCat = some [] ∧
    (∀ e ∈ es, lookupE (((moveStaticFile app t s).workCat).getD []) e.1 = none) ∧
    (moveStaticFile app t s).record = s.record ++ es.map Prod.fst := by
  have hms : moveStaticFile app t s =
      es.foldl (moveOne app t) { s with destExists := true, workCat := some es } := by
    unfold moveStaticFile
    rw [hw]
  rw [hms]
  have hwc :=
    fold_workCat app t es { s with destExists := true, workCat := some es } rfl
  refine ⟨fun e he => fold_dest app t es _ hnd e he, hwc, ?_, ?_⟩
  · intro e _
    rw [hwc]
    rfl
  · rw [fold_record]

def c7state : FsCatState :=
  { workCat := some [("a.js", .file "1"), ("b.js", .file "2")],
    destCat := [], destExists := false, record := [], log := [] }

theorem claim_c7_witness :
    (∀ e ∈ [(("a.js" : String), FsEntry.file "1"), ("b.js", FsEntry.file "2")],
      lookupE (moveStaticFile "web" "js" c7state).destCat e.1 = some e.2) ∧
    (moveStaticFile "web" "js" c7state).workCat = some [] ∧
    (∀ e ∈ [(("a.js" : String), FsEntry.file "1"), ("b.js", FsEntry.file "2")],
      lookupE (((moveStaticFile "web" "js" c7state).workCat).getD []) e.1 = none) ∧
    (moveStaticFile "web" "js" c7state).record = [] ++ ["a.js", "b.js"] :=
  claim_c7 "web" "js" c7state _ rfl (by decide)

/-- Claim C8: if the source category directory is absent, the move phase for
that category performs zero moves, records nothing, logs the informational
notice, raises no error (it is a total function), and only the destination
directory creation is left behind. -/
theorem claim_c8 (app t : String) (s : FsCatState) (h : s.workCat = none) :
    moveStaticFile app t s =
      { s with destExists := true, log := s.log ++ [noticeMsg t] } ∧
    (moveStaticFile app t s).record = s.record ∧
    (moveStaticFile app t s).destCat = s.destCat ∧
    (moveStaticFile app t s).workCat = none := by
  have he : moveStaticFile app t s =
      { s with destExists := true, log := s.log ++ [noticeMsg t] } := by
    unfold moveStaticFile
    rw [h]
  exact ⟨he, by rw [he], by rw [he], by rw [he]; exact h⟩

def c8state : FsCatState :=
  { workCat := none, destCat := [("old.css", .file "0")], destExists := false,
    record := ["r"], log := ["l"] }

theorem claim_c8_witness :
    moveStaticFile "web" "css" c8state =
      { c8state with destExists := true, log := c8state.log ++ [noticeMsg "css"] } ∧
    (moveStaticFile "web" "css" c8state).record = c8state.record ∧
    (moveStaticFile "web" "css" c8state).destCat = c8state.destCat ∧
    (moveStaticFile "web" "css" c8state).workCat = none :=
  claim_c8 "web" "css" c8state rfl

/-- Claim C9: move_static_file creates the destination category directory
unconditionally, before looking at the source: after every call the
destination directory exists, and in particular a call on an absent source
category starting without the destination directory is not a filesystem
no-op. -/
theorem claim_c9 (app t : String) (s : FsCatState) :
    (moveStaticFile app t s).destExists = true ∧
    (s.workCat = none → s.destExists = false → moveStaticFile app t s ≠ s) := by
  have hde : (moveStaticFile app t s).destExists = true := by
    unfold moveStaticFile
    cases h : s.workCat with
    | none => rfl
    | some es =>
      rw [fold_destExists]
  refine ⟨hde, ?_⟩
  intro _ h2 he
  rw [he] at hde
  rw [hde] at h2
  exact absurd h2 (by decide)

def c9state : FsCatState :=
  { workCat := none, destCat := [], destExists := false, record := [], log := [] }

theorem claim_c9_witness :
    (moveStaticFile "web" "images" c9state).destExists = true ∧
    moveStaticFile "web" "images" c9state ≠ c9state :=
  ⟨(claim_c9 "web" "images" c9state).1, (claim_c9 "web" "images" c9state).2 rfl rfl⟩

/-- Claim C10: the script pass and the lottie pass check attribute presence
before reading, so a script element with no src and a lottie container (div
with data-animation-type=lottie) with no data-src are left unchanged and the
passes are total; by contrast the link and img passes fail (unhandled error)
on a link with no href or an img with no src. -/
theorem claim_c10 (app : String) :
    (∀ a, getAttr a "src" = none → scriptF app "script" a = some (a, [])) ∧
    (∀ a, getAttr a "data-animation-type" = some "lottie" →
      getAttr a "data-src" = none → lottieF app "div" a = some (a, [])) ∧
    (∀ n a, (scriptF app n a).isSome) ∧
    (∀ n a, (lottieF app n a).isSome) ∧
    (∀ a, getAttr a "href" = none → linkF app "link" a = none) ∧
    (∀ a, getAttr a "src" = none → imgF app "img" a = none) := by
  refine ⟨?_, ?_, fun n a => scriptF_total app n a, fun n a => lottieF_total app n a,
    fun a h => linkF_none app a h, fun a h => imgF_none app a h⟩
  · intro a h
    simp [scriptF, h]
  · intro a hl h
    simp [lottieF, hl, h]

theorem claim_c10_witness :
    scriptF "web" "script" [("id", "x")] = some ([("id", "x")], []) ∧
    lottieF "web" "div" [("data-animation-type", "lottie")] =
      some ([("data-animation-type", "lottie")], []) ∧
    linkF "web" "link" [("id", "x")] = none ∧
    imgF "web" "img" [("id", "x")] = none :=
  ⟨(claim_c10 "web").1 _ rfl, (claim_c10 "web").2.1 _ rfl rfl,
    (claim_c10 "web").2.2.2.2.1 _ rfl, (claim_c10 "web").2.2.2.2.2 _ rfl⟩
